import Mathlib

/-!
# Shallow embedding of the ncdns query-resolution engine

This file embeds the per-request query-resolution engine of `ncdns.go`
(the `Tx` state machine: zone walk, branch classification, section
assembly, NSEC3 denial, additional-section glue) as executable Lean
definitions, and proves the specification claims about it.

Conventions:
* DNS wire constants (`dns.TypeSOA`, `dns.ClassINET`, ...) are the
  numeric values of the miekg/dns library.
* Go slices become `List`, Go `map[K]struct{}` sets become
  insertion-ordered duplicate-free lists, `nil` errors become
  `Option NCErr`, and the mutable `Tx` becomes explicit state passing.
* Functions of the repository that are not part of the provided sources
  (`absname`, `stepName`, `istype`, `useDNSSEC`, `signResponse`) are
  modelled from the specification; each carries a doc comment saying so.
* `dns.HashName` is an external library function and is carried as an
  abstract parameter (`Env.hashName`).
-/

namespace Ncdns

/-! ## DNS constants (miekg/dns values) -/

def TypeA : Nat := 1
def TypeNS : Nat := 2
def TypeCNAME : Nat := 5
def TypeSOA : Nat := 6
def TypeAAAA : Nat := 28
def TypeDS : Nat := 43
def TypeRRSIG : Nat := 46
def TypeDNSKEY : Nat := 48
def TypeNSEC3 : Nat := 50
def TypeANY : Nat := 255

def ClassINET : Nat := 1
def ClassANY : Nat := 255

def RcodeSuccess : Nat := 0
def RcodeServerFailure : Nat := 2
def RcodeNameError : Nat := 3
def RcodeRefused : Nat := 5

/-- `dns.SHA1` NSEC3 hash algorithm number. -/
def SHA1 : Nat := 1

/-! ## Resource records -/

/-- Rdata payloads for the record types the engine inspects.  A record of
any other type is `otherData`; the engine passes such records through
without looking inside them. -/
inductive RData where
  | soaData : RData
  | nsData (target : String) : RData
  | cnameData (target : String) : RData
  | dsData (keyTag : Nat) : RData
  | dnskeyData (flags : Nat) (protocol : Nat) (algorithm : Nat) (publicKey : String) : RData
  | nsec3Data (hash : Nat) (flags : Nat) (iterations : Nat) (saltLength : Nat)
      (salt : String) (hashLength : Nat) (nextDomain : String) (typeBitMap : List Nat) : RData
  | rrsigData (typeCovered : Nat) (signerName : String) : RData
  | aData (addr : String) : RData
  | otherData : RData
deriving DecidableEq

/-- `dns.RR_Header`: owner name, type, class, TTL. -/
structure RRHeader where
  name : String
  rrtype : Nat
  rclass : Nat
  ttl : Nat
deriving DecidableEq

/-- A resource record: header plus rdata. -/
structure RR where
  hdr : RRHeader
  rdata : RData
deriving DecidableEq

/-- Models the Go type assertion `ns.(*dns.NS)` followed by the `.Ns`
field access: the target of an NS record (well-formed NS records carry
`nsData`). -/
def nsTarget (rr : RR) : String :=
  match rr.rdata with
  | RData.nsData t => t
  | _ => ""

/-- `rrsetHasType` from ncdns.go: the first record of type `t` in the
set, if any. -/
def rrsetHasType (rrs : List RR) (t : Nat) : Option RR :=
  rrs.find? (fun rr => rr.hdr.rrtype == t)

/-! ## Errors and the backend -/

/-- The `ncerr` error values the engine distinguishes, plus `other` for
any remaining error. -/
inductive NCErr where
  | noResults : NCErr
  | noSuchDomain : NCErr
  | notInZone : NCErr
  | other (msg : String) : NCErr
deriving DecidableEq

/-- `Backend.Lookup`: a synchronous name → record-set lookup.  A Go
`(rrs, err)` pair becomes a pair with an optional error. -/
def Backend : Type := String → List RR × Option NCErr

/-- `blookup` from ncdns.go: wraps `Backend.Lookup`, turning a
successful empty result into `ErrNoResults`. -/
def blookup (b : Backend) (qname : String) : List RR × Option NCErr :=
  let p := b qname
  if p.2 = none ∧ p.1.length = 0 then (p.1, some NCErr.noResults) else p

/-! ## Name utilities -/

/-- `strings.TrimRight(s, ".")`: strip all trailing dots. -/
def trimRightDots (s : String) : String :=
  String.mk ((s.data.reverse.dropWhile (fun c => c = '.')).reverse)

/-- Models `nidx := strings.Index(n, "."); n = n[nidx+1:]`: drop
everything up to and including the first dot; `none` when there is no
dot (the Go loop then breaks). -/
def dropThroughDot : List Char → Option (List Char)
  | [] => none
  | c :: rest => if c = '.' then some rest else dropThroughDot rest

theorem dropThroughDot_length_lt :
    ∀ (n n2 : List Char), dropThroughDot n = some n2 → n2.length < n.length := by
  intro n
  induction n with
  | nil => intro n2 h; simp [dropThroughDot] at h
  | cons c rest ih =>
    intro n2 h
    by_cases hc : c = '.'
    · simp [dropThroughDot, hc] at h
      simp only [← h, List.length_cons]
      omega
    · simp [dropThroughDot, hc] at h
      have := ih n2 h
      simp only [List.length_cons]
      omega

/-- Modelled from the spec: `absname` is not among the provided source
files; per the spec, owner names are absolute, and `absolute(n)` appends
a trailing dot when one is missing (the root name is "."). -/
def absname (n : String) : String :=
  if n = "" then "."
  else if n.data.getLast? = some '.' then n
  else n ++ "."

/-- Modelled from the spec: `stepName` is not among the provided source
files.  The spec defines `step` as "the lexicographically next label in
base-32-hex space (increment the encoded hash, wrap within the label)".
`b32hexNext` is the successor of one base-32-hex digit together with its
carry. -/
def b32hexNext (c : Char) : Char × Bool :=
  if c = 'V' then ('0', true)
  else if c = '9' then ('A', false)
  else (Char.ofNat (c.toNat + 1), false)

/-- Modelled from the spec: increment a reversed base-32-hex string,
propagating the carry leftward. -/
def stepRev : List Char → List Char
  | [] => []
  | c :: rest =>
    match b32hexNext c with
    | (c2, true) => c2 :: stepRev rest
    | (c2, false) => c2 :: rest

/-- Modelled from the spec: `stepName` increments the base-32-hex
encoded hash, wrapping within the label. -/
def stepName (n : String) : String :=
  String.mk ((stepRev n.data.reverse).reverse)

/-! ## Server state -/

/-- `ServerConfig` from ncdns.go. -/
structure ServerConfig where
  bind : String
  publicKey : String
  privateKey : String
  zonePublicKey : String
  zonePrivateKey : String
  namecoinRPCUsername : String
  namecoinRPCPassword : String
  namecoinRPCAddress : String
  cacheMaxEntries : Nat
  selfIP : String
  selfName : String
deriving DecidableEq

/-- The process-wide `Server` state shared by all requests: the two
DNSKEY records with their private keys, the configuration, and the
backend handle. -/
structure Server where
  ksk : RR
  kskPrivate : String
  zsk : RR
  zskPrivate : String
  cfg : ServerConfig
  b : Backend

/-- External primitives the engine calls: `dns.HashName` from the
miekg/dns library (arguments: name, hash algorithm, iterations, salt). -/
structure Env where
  hashName : String → Nat → Nat → String → String

/-! ## The transaction -/

/-- The per-request transaction `Tx`, merged with the response message
it builds (`res.Answer` = `answer`, `res.Ns` = `authority`, `res.Extra`
= `extra`, `res.Authoritative` = `authoritative`).  `useDNSSEC` is
modelled from the spec (the predicate "DNSSEC is in use" for the
request; its definition is not among the provided sources).  The Go
maps `typesAtQname` and `additionalQueue` are modelled as
insertion-ordered duplicate-free lists. -/
structure TxState where
  qname : String
  qtype : Nat
  qclass : Nat
  rcode : Nat
  answer : List RR
  authority : List RR
  extra : List RR
  authoritative : Bool
  typesAtQname : List Nat
  additionalQueue : List String
  soa : Option RR
  delegationPoint : String
  queryIsAtDelegationPoint : Bool
  consolationSOA : Bool
  suppressNSEC : Bool
  useDNSSEC : Bool
  server : Server
  env : Env

/-- Modelled from the spec: `istype` is not among the provided source
files.  Per the spec, a record type matches the question when it equals
`qtype` or when `qtype` is ANY ("qtype == ANY matches all"; the
delegation branch's comment "don't use istype, must not match ANY"
confirms that `istype` matches ANY). -/
def TxState.istype (tx : TxState) (t : Nat) : Bool :=
  tx.qtype == t || tx.qtype == TypeANY

/-- Insert into an insertion-ordered set (`m[k] = struct{}{}`). -/
def insertType (l : List Nat) (t : Nat) : List Nat :=
  if t ∈ l then l else l ++ [t]

/-- `queueAdditional` from ncdns.go. -/
def queueAdditional (tx : TxState) (name : String) : TxState :=
  { tx with additionalQueue :=
      if name ∈ tx.additionalQueue then tx.additionalQueue
      else tx.additionalQueue ++ [name] }

/-! ## The zone walk (`addAnswersMain`, loop `A`) -/

/-- The local variables of the `addAnswersMain` loop, plus the `Tx`
fields the loop assigns (`delegationPoint`, `queryIsAtDelegationPoint`)
and, as instrumentation mirroring the `log.Info("blookup: ", qname)`
call in `blookup`, the list of names looked up. -/
structure WalkState where
  soa : Option RR
  origq : List RR
  origerr : Option NCErr
  firsterr : Option NCErr
  nss : List RR
  firstNSAtLen : Int
  firstSOAAtLen : Int
  delegationPoint : String
  queryIsAtDelegationPoint : Bool
  visited : List String

/-- The body of `suffixes`, with explicit fuel so that it is a
structural recursion the kernel can evaluate. -/
def suffixesFuel : Nat → List Char → List (List Char)
  | 0, _ => []
  | k + 1, n =>
    if n = [] then []
    else
      n ::
        (match dropThroughDot n with
         | none => []
         | some n2 => suffixesFuel k n2)

/-- The sequence of values taken by `n` in loop `A`: `n₀` and then
repeatedly the suffix after the first dot, while nonempty.  A fuel of
`n.length + 1` always suffices since each dot-step strictly shortens
the name. -/
def suffixes (n : List Char) : List (List Char) :=
  suffixesFuel (n.length + 1) n

theorem suffixesFuel_irrel :
    ∀ (k k2 : Nat) (n : List Char), n.length < k → n.length < k2 →
      suffixesFuel k n = suffixesFuel k2 n := by
  intro k
  induction k with
  | zero => intro k2 n h _; omega
  | succ k ih =>
    intro k2 n hk hk2
    rcases k2 with _ | k2
    · omega
    · simp only [suffixesFuel]
      by_cases hn : n = []
      · rw [if_pos hn, if_pos hn]
      · rw [if_neg hn, if_neg hn]
        congr 1
        rcases hd : dropThroughDot n with _ | n2
        · rfl
        · have := dropThroughDot_length_lt n n2 hd
          exact ih k2 n2 (by omega) (by omega)

/-- The inner `for i := range rrs` scan of one level's record set.
`full` is the whole record set (`nss = rrs` assigns the entire set).
Returns the updated state and whether the `break A` on a SOA record was
taken; records after the first SOA in the set are not scanned. -/
def scanRRs (full : List RR) (norig n : List Char) :
    WalkState → List RR → WalkState × Bool
  | st, [] => (st, false)
  | st, rr :: rest =>
    if rr.hdr.rrtype = TypeSOA then
      -- found the apex of the closest zone for which we are authoritative
      ({ st with soa := if st.soa = none then some rr else st.soa,
                 firstSOAAtLen := if st.firstSOAAtLen < 0 then (n.length : Int)
                                  else st.firstSOAAtLen },
       true)
    else if rr.hdr.rrtype = TypeNS then
      -- found an NS on the path; not authoritative for this owner or below
      scanRRs full norig n
        (if st.firstNSAtLen < 0 then
           { st with nss := full, firstNSAtLen := (n.length : Int),
                     delegationPoint := absname (String.mk n),
                     queryIsAtDelegationPoint :=
                       if n = norig then true else st.queryIsAtDelegationPoint }
         else { st with nss := full })
        rest
    else
      scanRRs full norig n st rest

/-- The updates at the head of one iteration of loop `A`: the visited
log (the `log.Info` in `blookup`) and the capture of the results for
the original qname when `len(n) == len(norig)`. -/
def walkStep1 (b : Backend) (norig n : List Char) (st : WalkState) : WalkState :=
  if n.length = norig.length then
    { st with visited := st.visited ++ [String.mk n],
              origq := (blookup b (String.mk n)).1,
              origerr := (blookup b (String.mk n)).2 }
  else
    { st with visited := st.visited ++ [String.mk n] }

/-- The scan of the record set looked up at `n` (the success case of
one iteration of loop `A`). -/
def walkScan (b : Backend) (norig n : List Char) (st : WalkState) : WalkState × Bool :=
  scanRRs (blookup b (String.mk n)).1 norig n (walkStep1 b norig n st)
    (blookup b (String.mk n)).1

/-- One iteration of loop `A` per element of the suffix chain, stopping
early when a SOA record broke the scan; on a failed lookup the first
error is remembered. -/
def walkSteps (b : Backend) (norig : List Char) :
    WalkState → List (List Char) → WalkState
  | st, [] => st
  | st, n :: rest =>
    match (blookup b (String.mk n)).2 with
    | none =>
      if (walkScan b norig n st).2 then (walkScan b norig n st).1
      else walkSteps b norig (walkScan b norig n st).1 rest
    | some e =>
      walkSteps b norig
        (if st.firsterr = none then { walkStep1 b norig n st with firsterr := some e }
         else walkStep1 b norig n st) rest

/-- The walk of `addAnswersMain`, seeded with the `Tx` fields it may
leave untouched. -/
def walkQ (b : Backend) (dp : String) (qidp : Bool) (qname : String) : WalkState :=
  let norig := (trimRightDots qname).data
  walkSteps b norig
    { soa := none, origq := [], origerr := none, firsterr := none, nss := [],
      firstNSAtLen := -1, firstSOAAtLen := -1, delegationPoint := dp,
      queryIsAtDelegationPoint := qidp, visited := [] }
    (suffixes norig)

/-- The walk on a fresh transaction (as `handle` creates one). -/
def zoneWalk (b : Backend) (qname : String) : WalkState :=
  walkQ b "" false qname

/-! ## Authoritative branch -/

/-- `addAnswersCNAME` from ncdns.go. -/
def addAnswersCNAME (tx : TxState) (cn : RR) : TxState × Option NCErr :=
  ({ tx with answer := tx.answer ++ [cn] }, none)

/-- The "add every record which was requested" loop of
`addAnswersAuthoritative`. -/
def authAnswerLoop : TxState → List RR → TxState
  | tx, [] => tx
  | tx, rr :: rest =>
    let t := rr.hdr.rrtype
    let tx := if tx.istype t then { tx with answer := tx.answer ++ [rr] } else tx
    let tx := { tx with typesAtQname := insertType tx.typesAtQname t }
    authAnswerLoop tx rest

/-- The tail of `addAnswersAuthoritative` after the CNAME check: the
answer loop and the consolation-SOA flag for empty answers. -/
def authAnswerRest (tx : TxState) (rrs : List RR) : TxState × Option NCErr :=
  let tx := authAnswerLoop tx rrs
  let tx := if tx.answer = [] then { tx with consolationSOA := true } else tx
  (tx, none)

/-- `addAnswersAuthoritative` from ncdns.go. -/
def addAnswersAuthoritative (tx : TxState) (rrs : List RR) (origerr : Option NCErr) :
    TxState × Option NCErr :=
  match origerr with
  | some e => (tx, some e)
  | none =>
    match rrsetHasType rrs TypeCNAME with
    | some cn =>
      if tx.istype TypeCNAME then authAnswerRest tx rrs
      else addAnswersCNAME tx cn
    | none => authAnswerRest tx rrs

/-! ## Delegation branch -/

/-- The DS-answer loop of the `(delegationPoint, DS)` sub-case; the
Boolean is the `added` flag. -/
def dsAnswerLoop : TxState → Bool → List RR → TxState × Bool
  | tx, added, [] => (tx, added)
  | tx, added, rr :: rest =>
    if rr.hdr.rrtype = TypeDS then
      dsAnswerLoop { tx with answer := tx.answer ++ [rr] } true rest
    else
      dsAnswerLoop tx added rest

/-- The authority-section loop of the general delegation sub-case. -/
def delegationLoop : TxState → List RR → TxState
  | tx, [] => tx
  | tx, rr :: rest =>
    let t := rr.hdr.rrtype
    let tx := if t = TypeNS ∨ t = TypeDS then { tx with authority := tx.authority ++ [rr] } else tx
    let tx := if t = TypeNS then queueAdditional tx (nsTarget rr) else tx
    let tx := if t = TypeDS then { tx with suppressNSEC := true } else tx
    delegationLoop tx rest

/-- `addAnswersDelegation` from ncdns.go. -/
def addAnswersDelegation (tx : TxState) (nss : List RR) : TxState × Option NCErr :=
  let tx :=
    if tx.qtype = TypeDS ∧ tx.queryIsAtDelegationPoint then
      -- type DS requested specifically (not ANY) at the delegation point
      match dsAnswerLoop tx false nss with
      | (tx, true) => { tx with suppressNSEC := true }
      | (tx, false) => { tx with consolationSOA := true }
    else
      delegationLoop { tx with authoritative := false } nss
  -- nonauthoritative NS records are still included in the NSEC types list
  ({ tx with typesAtQname := insertType tx.typesAtQname TypeNS }, none)

/-! ## `addAnswersMain` -/

/-- `addAnswersMain` from ncdns.go: run the walk, write back the `Tx`
fields it assigns, then classify. -/
def addAnswersMain (tx : TxState) : TxState × Option NCErr :=
  let w := walkQ tx.server.b tx.delegationPoint tx.queryIsAtDelegationPoint tx.qname
  let tx := { tx with delegationPoint := w.delegationPoint,
                      queryIsAtDelegationPoint := w.queryIsAtDelegationPoint }
  match w.soa with
  | none =>
    -- no SOA at any point: no appropriate zone for this query
    (tx, some NCErr.notInZone)
  | some s =>
    let tx := { tx with soa := some s }
    if w.firstSOAAtLen ≥ w.firstNSAtLen then
      addAnswersAuthoritative tx w.origq w.origerr
    else
      addAnswersDelegation tx w.nss

/-- The branch `addAnswersMain` dispatches to, as an observable value. -/
inductive Branch where
  | notInZone : Branch
  | authoritative (origq : List RR) (origerr : Option NCErr) : Branch
  | delegation (nss : List RR) : Branch
deriving DecidableEq

/-- The classification decision of `addAnswersMain` on a fresh
transaction. -/
def classify (b : Backend) (qname : String) : Branch :=
  let w := zoneWalk b qname
  match w.soa with
  | none => Branch.notInZone
  | some _ =>
    if w.firstSOAAtLen ≥ w.firstNSAtLen then Branch.authoritative w.origq w.origerr
    else Branch.delegation w.nss

/-! ## DNSKEY at the apex and the consolation SOA (`addAnswers`) -/

/-- The "if we are at the zone apex" block of `addAnswers`
(ncdns.go lines 269-284): when the apex SOA was discovered and SOA is
among the types at `qname`, add the DNSKEYs (when requested) with their
owner names rewritten to the apex — note this rewrites the *shared*
server records — and record DNSKEY in `typesAtQname`. -/
def dnskeyStep (tx : TxState) : TxState :=
  match tx.soa with
  | some s =>
    if TypeSOA ∈ tx.typesAtQname then
      let tx :=
        if tx.istype TypeDNSKEY then
          let ksk2 := { tx.server.ksk with hdr := { tx.server.ksk.hdr with name := s.hdr.name } }
          let zsk2 := { tx.server.zsk with hdr := { tx.server.zsk.hdr with name := ksk2.hdr.name } }
          { tx with server := { tx.server with ksk := ksk2, zsk := zsk2 },
                    answer := tx.answer ++ [ksk2, zsk2],
                    -- cancel the consolation SOA since we're giving DNSKEY answers
                    consolationSOA := false }
        else tx
      { tx with typesAtQname := insertType tx.typesAtQname TypeDNSKEY }
    else tx
  | none => tx

/-- The consolation-SOA block of `addAnswers` (ncdns.go lines
287-289). -/
def consolationStep (tx : TxState) : TxState :=
  match tx.soa with
  | some s => if tx.consolationSOA then { tx with authority := tx.authority ++ [s] } else tx
  | none => tx

/-! ## NSEC3 denial -/

/-- `addNSEC3RRActual` from ncdns.go.  The `name` parameter is unused
by the source as well (the hash is taken of `tx.qname`).  The hash
length field is a `uint8` in Go, hence the `% 256`.  The sort of the
type bit-map (`sort.Sort(uint16Slice(tbm))`) is `mergeSort`, and
iterating the Go `map` keys is iterating the modelled list. -/
def addNSEC3RRActual (tx : TxState) (name : String) (tset : List Nat) :
    TxState × Option NCErr :=
  let _ := name
  let tbm := tset.mergeSort (fun a b => a ≤ b)
  let nsr1n := tx.env.hashName tx.qname SHA1 1 "8F"
  let nsr1nn := stepName nsr1n
  -- `tx.soa.Hdr.Name`: the pipeline only reaches this point with the
  -- apex SOA set (a nil dereference otherwise).
  let soaName := match tx.soa with | some s => s.hdr.name | none => ""
  let nsr1 : RR :=
    { hdr := { name := absname (nsr1n ++ "." ++ soaName), rrtype := TypeNSEC3,
               rclass := ClassINET, ttl := 600 },
      rdata := RData.nsec3Data SHA1 0 1 1 "8F" (nsr1nn.length % 256) nsr1nn tbm }
  ({ tx with authority := tx.authority ++ [nsr1] }, none)

/-- `addNSEC3RR` from ncdns.go: deny the name. -/
def addNSEC3RR (tx : TxState) : TxState × Option NCErr :=
  addNSEC3RRActual tx tx.qname tx.typesAtQname

/-- `addNSEC` from ncdns.go. -/
def addNSEC (tx : TxState) : TxState × Option NCErr :=
  if ¬ tx.useDNSSEC ∨ tx.suppressNSEC then (tx, none)
  else if tx.answer = [] then addNSEC3RR tx
  else (tx, none)

/-! ## Additional section -/

/-- The A/AAAA filter loop of `addAdditionalItem`. -/
def additionalLoop : TxState → List RR → TxState
  | tx, [] => tx
  | tx, rr :: rest =>
    let t := rr.hdr.rrtype
    let tx := if t = TypeA ∨ t = TypeAAAA then { tx with extra := tx.extra ++ [rr] } else tx
    additionalLoop tx rest

/-- `addAdditionalItem` from ncdns.go. -/
def addAdditionalItem (tx : TxState) (aname : String) : TxState × Option NCErr :=
  let p := blookup tx.server.b aname
  match p.2 with
  | some e => (tx, some e)
  | none => (additionalLoop tx p.1, none)

/-- `addAdditional` from ncdns.go: look up every queued name, eating
individual errors.  The Go `map` iteration order is unspecified; the
queue is modelled in insertion order. -/
def addAdditional (tx : TxState) : TxState :=
  tx.additionalQueue.foldl (fun t aname => (addAdditionalItem t aname).1) tx

/-! ## Signing (modelled) -/

/-- The (owner, type) keys of the RRSets present in a section, in first
occurrence order. -/
def rrsetKeys (rrs : List RR) : List (String × Nat) :=
  rrs.foldl (fun acc rr => if (rr.hdr.name, rr.hdr.rrtype) ∈ acc then acc
                           else acc ++ [(rr.hdr.name, rr.hdr.rrtype)]) []

/-- Modelled from the spec: one RRSIG covering the RRSet with key `k`;
DNSKEY RRSets are signed by the KSK, all other authoritative sets by
the ZSK. -/
def rrsigFor (tx : TxState) (k : String × Nat) : RR :=
  { hdr := { name := k.1, rrtype := TypeRRSIG, rclass := ClassINET, ttl := 600 },
    rdata := RData.rrsigData k.2
      (if k.2 = TypeDNSKEY then tx.server.ksk.hdr.name else tx.server.zsk.hdr.name) }

/-- Modelled from the spec: `signResponse` is not among the provided
source files.  Per the spec (§4.3.8), for each authoritative RRSet
placed into Answer or Authority — and not at all when
`Authoritative=false` — one RRSIG covering that set is appended to the
same section. -/
def signResponse (tx : TxState) : TxState × Option NCErr :=
  if tx.authoritative then
    ({ tx with answer := tx.answer ++ (rrsetKeys tx.answer).map (rrsigFor tx),
               authority := tx.authority ++ (rrsetKeys tx.authority).map (rrsigFor tx) }, none)
  else (tx, none)

/-! ## `addAnswers` and the dispatcher -/

/-- `addAnswers` from ncdns.go: the full per-question pipeline. -/
def addAnswers (tx : TxState) : TxState × Option NCErr :=
  match addAnswersMain tx with
  | (tx, some e) => (tx, some e)
  | (tx, none) =>
    let tx := dnskeyStep tx
    let tx := consolationStep tx
    match addNSEC tx with
    | (tx, some e) => (tx, some e)
    | (tx, none) =>
      let tx := addAdditional tx
      signResponse tx

/-- One question of a request. -/
structure Question where
  name : String
  qtype : Nat
  qclass : Nat
deriving DecidableEq

/-- A request: its questions, and (modelled from the spec) whether
DNSSEC is in use for it. -/
structure Request where
  questions : List Question
  dnssecOK : Bool

/-- `strings.ToLower` for the ASCII names the engine handles. -/
def strToLower (s : String) : String :=
  String.mk (s.data.map (fun c =>
    if 65 ≤ c.toNat ∧ c.toNat ≤ 90 then Char.ofNat (c.toNat + 32) else c))

/-- The error-to-rcode mapping of `handle` (ncdns.go lines 222-237):
`NoResults` → NOERROR, `NoSuchDomain` → NXDOMAIN, anything else →
SERVFAIL unless a non-zero rcode was already set. -/
def errorRcode (e : NCErr) (rcode : Nat) : Nat :=
  if e = NCErr.noResults then 0
  else if e = NCErr.noSuchDomain then RcodeNameError
  else if rcode = 0 then RcodeServerFailure
  else rcode

/-- The fresh transaction `handle` builds for a request.  (The EDNS0
OPT echo into Extra is not modelled; no claim concerns it.) -/
def initTx (srv : Server) (env : Env) (req : Request) : TxState :=
  { qname := "", qtype := 0, qclass := 0, rcode := 0,
    answer := [], authority := [], extra := [], authoritative := true,
    typesAtQname := [], additionalQueue := [], soa := none,
    delegationPoint := "", queryIsAtDelegationPoint := false,
    consolationSOA := false, suppressNSEC := false,
    useDNSSEC := req.dnssecOK, server := srv, env := env }

/-- The question loop of `handle`: one transaction is reused across the
questions; the class filter skips a question; the first resolver error
sets the rcode and breaks the loop. -/
def handleLoop : TxState → List Question → TxState
  | tx, [] => tx
  | tx, q :: rest =>
    let tx := { tx with qname := strToLower q.name, qtype := q.qtype, qclass := q.qclass }
    if q.qclass ≠ ClassINET ∧ q.qclass ≠ ClassANY then handleLoop tx rest
    else
      match addAnswers tx with
      | (tx, none) => handleLoop tx rest
      | (tx, some e) => { tx with rcode := errorRcode e tx.rcode }

/-- `handle` from ncdns.go: process the questions of one request on a
fresh transaction; the final `rcode` field is what `SetRcode` puts on
the wire, and `answer`/`authority`/`extra` are the response sections. -/
def handle (srv : Server) (env : Env) (req : Request) : TxState :=
  handleLoop (initTx srv env req) req.questions

/-! ## Observations on the walk -/

/-- The record set contains a SOA record (the scan of loop `A` then
stops at that level). -/
def soaIn (l : List RR) : Bool :=
  l.any (fun rr => rr.hdr.rrtype == TypeSOA)

/-- The record set contains an NS record before any SOA record
(exactly when the scan of loop `A` runs its NS case on the set, since
the scan stops at the first SOA). -/
def nsBeforeSOA (l : List RR) : Bool :=
  (l.takeWhile (fun rr => rr.hdr.rrtype != TypeSOA)).any
    (fun rr => rr.hdr.rrtype == TypeNS)

/-- A successful lookup of `s` yields a record set containing a SOA
record. -/
def soaVisible (b : Backend) (s : String) : Bool :=
  (blookup b s).2 == none && soaIn (blookup b s).1

/-- A successful lookup of `s` yields a record set whose scan runs the
NS case. -/
def nsVisible (b : Backend) (s : String) : Bool :=
  (blookup b s).2 == none && nsBeforeSOA (blookup b s).1

/-! ## Scan lemmas -/

theorem scanRRs_frame (full : List RR) (norig n : List Char) :
    ∀ (l : List RR) (st : WalkState),
      (scanRRs full norig n st l).1.origq = st.origq ∧
      (scanRRs full norig n st l).1.origerr = st.origerr ∧
      (scanRRs full norig n st l).1.firsterr = st.firsterr ∧
      (scanRRs full norig n st l).1.visited = st.visited := by
  intro l
  induction l with
  | nil => intro st; simp [scanRRs]
  | cons rr rest ih =>
    intro st
    simp only [scanRRs]
    split_ifs <;> simp [ih]

theorem scanRRs_broke_iff (full : List RR) (norig n : List Char) :
    ∀ (l : List RR) (st : WalkState),
      (scanRRs full norig n st l).2 = true ↔
        (∃ rr ∈ l, rr.hdr.rrtype = TypeSOA) := by
  intro l
  induction l with
  | nil => intro st; simp [scanRRs]
  | cons rr rest ih =>
    intro st
    simp only [scanRRs]
    split_ifs with hsoa hns <;> simp [ih, hsoa]

theorem scanRRs_not_broke (full : List RR) (norig n : List Char) :
    ∀ (l : List RR) (st : WalkState),
      (scanRRs full norig n st l).2 = false →
      (scanRRs full norig n st l).1.soa = st.soa ∧
      (scanRRs full norig n st l).1.firstSOAAtLen = st.firstSOAAtLen := by
  intro l
  induction l with
  | nil => intro st _; simp [scanRRs]
  | cons rr rest ih =>
    intro st hb
    by_cases hsoa : rr.hdr.rrtype = TypeSOA
    · simp only [scanRRs, if_pos hsoa] at hb
      simp at hb
    · by_cases hns : rr.hdr.rrtype = TypeNS
      · simp only [scanRRs, if_neg hsoa, if_pos hns] at hb ⊢
        by_cases hlt : st.firstNSAtLen < 0
        · rw [if_pos hlt] at hb ⊢
          rcases ih _ hb with ⟨h1, h2⟩
          exact ⟨h1, h2⟩
        · rw [if_neg hlt] at hb ⊢
          rcases ih _ hb with ⟨h1, h2⟩
          exact ⟨h1, h2⟩
      · simp only [scanRRs, if_neg hsoa, if_neg hns] at hb ⊢
        exact ih st hb

theorem scanRRs_broke_soa (full : List RR) (norig n : List Char) :
    ∀ (l : List RR) (st : WalkState),
      st.soa = none →
      (scanRRs full norig n st l).2 = true →
      (scanRRs full norig n st l).1.soa ≠ none := by
  intro l
  induction l with
  | nil => intro st _ hb; simp [scanRRs] at hb
  | cons rr rest ih =>
    intro st hs hb
    by_cases hsoa : rr.hdr.rrtype = TypeSOA
    · simp only [scanRRs, if_pos hsoa]
      simp [hs]
    · by_cases hns : rr.hdr.rrtype = TypeNS
      · simp only [scanRRs, if_neg hsoa, if_pos hns] at hb ⊢
        by_cases hlt : st.firstNSAtLen < 0
        · rw [if_pos hlt] at hb ⊢
          exact ih _ (by simp [hs]) hb
        · rw [if_neg hlt] at hb ⊢
          exact ih _ (by simp [hs]) hb
      · simp only [scanRRs, if_neg hsoa, if_neg hns] at hb ⊢
        exact ih st hs hb

theorem scanRRs_broke_eq (full : List RR) (norig n : List Char)
    (l : List RR) (st : WalkState) :
    (scanRRs full norig n st l).2 = soaIn l := by
  rcases hs : soaIn l with _ | _
  · rcases hb : (scanRRs full norig n st l).2 with _ | _
    · rfl
    · rcases (scanRRs_broke_iff full norig n l st).1 hb with ⟨rr, hmem, hrr⟩
      have : soaIn l = true := by
        simp only [soaIn, List.any_eq_true]
        exact ⟨rr, hmem, by simp [hrr]⟩
      rw [this] at hs; cases hs
  · apply (scanRRs_broke_iff full norig n l st).2
    simp only [soaIn, List.any_eq_true] at hs
    rcases hs with ⟨rr, hmem, hrr⟩
    exact ⟨rr, hmem, by simpa using hrr⟩

theorem scanRRs_nss (full : List RR) (norig n : List Char) :
    ∀ (l : List RR) (st : WalkState),
      (scanRRs full norig n st l).1.nss =
        (if nsBeforeSOA l then full else st.nss) := by
  intro l
  induction l with
  | nil => intro st; simp [scanRRs, nsBeforeSOA]
  | cons rr rest ih =>
    intro st
    by_cases hsoa : rr.hdr.rrtype = TypeSOA
    · simp [scanRRs, if_pos hsoa, nsBeforeSOA, List.takeWhile, hsoa]
    · by_cases hns : rr.hdr.rrtype = TypeNS
      · have hbs : nsBeforeSOA (rr :: rest) = true := by
          simp only [nsBeforeSOA, List.takeWhile]
          have : (rr.hdr.rrtype != TypeSOA) = true := by simp [hsoa]
          rw [this]
          simp [hns]
        simp only [scanRRs, if_neg hsoa, if_pos hns, hbs, if_true]
        by_cases hlt : st.firstNSAtLen < 0
        · rw [if_pos hlt, ih]
          split <;> rfl
        · rw [if_neg hlt, ih]
          split <;> rfl
      · have hbs : nsBeforeSOA (rr :: rest) = nsBeforeSOA rest := by
          simp only [nsBeforeSOA, List.takeWhile]
          have : (rr.hdr.rrtype != TypeSOA) = true := by simp [hsoa]
          rw [this]
          simp [hns]
        simp only [scanRRs, if_neg hsoa, if_neg hns, hbs]
        exact ih st

theorem scanRRs_firstNS_frozen (full : List RR) (norig n : List Char) :
    ∀ (l : List RR) (st : WalkState),
      ¬ st.firstNSAtLen < 0 →
      (scanRRs full norig n st l).1.firstNSAtLen = st.firstNSAtLen ∧
      (scanRRs full norig n st l).1.delegationPoint = st.delegationPoint ∧
      (scanRRs full norig n st l).1.queryIsAtDelegationPoint = st.queryIsAtDelegationPoint := by
  intro l
  induction l with
  | nil => intro st _; simp [scanRRs]
  | cons rr rest ih =>
    intro st hge
    by_cases hsoa : rr.hdr.rrtype = TypeSOA
    · simp [scanRRs, if_pos hsoa]
    · by_cases hns : rr.hdr.rrtype = TypeNS
      · simp only [scanRRs, if_neg hsoa, if_pos hns, if_neg hge]
        exact ih _ hge
      · simp only [scanRRs, if_neg hsoa, if_neg hns]
        exact ih st hge

theorem scanRRs_firstNS_set (full : List RR) (norig n : List Char) :
    ∀ (l : List RR) (st : WalkState),
      st.firstNSAtLen < 0 →
      (nsBeforeSOA l = true →
        (scanRRs full norig n st l).1.firstNSAtLen = (n.length : Int) ∧
        (scanRRs full norig n st l).1.delegationPoint = absname (String.mk n) ∧
        (scanRRs full norig n st l).1.queryIsAtDelegationPoint =
          (if n = norig then true else st.queryIsAtDelegationPoint)) ∧
      (nsBeforeSOA l = false →
        (scanRRs full norig n st l).1.firstNSAtLen = st.firstNSAtLen ∧
        (scanRRs full norig n st l).1.delegationPoint = st.delegationPoint ∧
        (scanRRs full norig n st l).1.queryIsAtDelegationPoint = st.queryIsAtDelegationPoint) := by
  intro l
  induction l with
  | nil =>
    intro st _
    constructor
    · intro hbs; simp [nsBeforeSOA] at hbs
    · intro _; simp [scanRRs]
  | cons rr rest ih =>
    intro st hlt
    by_cases hsoa : rr.hdr.rrtype = TypeSOA
    · have hbs : nsBeforeSOA (rr :: rest) = false := by
        simp [nsBeforeSOA, List.takeWhile, hsoa]
      constructor
      · intro h; rw [hbs] at h; cases h
      · intro _; simp [scanRRs, if_pos hsoa]
    · by_cases hns : rr.hdr.rrtype = TypeNS
      · have hbs : nsBeforeSOA (rr :: rest) = true := by
          simp only [nsBeforeSOA, List.takeWhile]
          have : (rr.hdr.rrtype != TypeSOA) = true := by simp [hsoa]
          rw [this]
          simp [hns]
        constructor
        · intro _
          simp only [scanRRs, if_neg hsoa, if_pos hns, if_pos hlt]
          have hfz := scanRRs_firstNS_frozen full norig n rest
            { st with nss := full, firstNSAtLen := (n.length : Int),
                      delegationPoint := absname (String.mk n),
                      queryIsAtDelegationPoint :=
                        if n = norig then true else st.queryIsAtDelegationPoint }
            (by simp)
          exact hfz
        · intro h; rw [hbs] at h; cases h
      · have hbs : nsBeforeSOA (rr :: rest) = nsBeforeSOA rest := by
          simp only [nsBeforeSOA, List.takeWhile]
          have : (rr.hdr.rrtype != TypeSOA) = true := by simp [hsoa]
          rw [this]
          simp [hns]
        simp only [scanRRs, if_neg hsoa, if_neg hns, hbs]
        exact ih st hlt

/-! ## Walk lemmas -/

theorem walkStep1_visited (b : Backend) (norig n : List Char) (st : WalkState) :
    (walkStep1 b norig n st).visited = st.visited ++ [String.mk n] := by
  unfold walkStep1; split <;> rfl

theorem walkStep1_frame (b : Backend) (norig n : List Char) (st : WalkState) :
    (walkStep1 b norig n st).soa = st.soa ∧
    (walkStep1 b norig n st).firsterr = st.firsterr ∧
    (walkStep1 b norig n st).nss = st.nss ∧
    (walkStep1 b norig n st).firstNSAtLen = st.firstNSAtLen ∧
    (walkStep1 b norig n st).firstSOAAtLen = st.firstSOAAtLen ∧
    (walkStep1 b norig n st).delegationPoint = st.delegationPoint ∧
    (walkStep1 b norig n st).queryIsAtDelegationPoint = st.queryIsAtDelegationPoint := by
  unfold walkStep1; split <;> simp

theorem walkSteps_visited_mono (b : Backend) (norig : List Char) :
    ∀ (chain : List (List Char)) (st : WalkState),
      ∃ new, (walkSteps b norig st chain).visited = st.visited ++ new := by
  intro chain
  induction chain with
  | nil => intro st; exact ⟨[], by simp [walkSteps]⟩
  | cons n rest ih =>
    intro st
    rcases hp : (blookup b (String.mk n)).2 with _ | e
    · rcases hb : (walkScan b norig n st).2 with _ | _
      · simp only [walkSteps, hp, hb, if_false, Bool.false_eq_true]
        rcases ih ((walkScan b norig n st).1) with ⟨new2, h2⟩
        refine ⟨String.mk n :: new2, ?_⟩
        rw [h2]
        have hv : (walkScan b norig n st).1.visited = st.visited ++ [String.mk n] := by
          have := (scanRRs_frame (blookup b (String.mk n)).1 norig n
            (blookup b (String.mk n)).1 (walkStep1 b norig n st)).2.2.2
          rw [walkScan, this, walkStep1_visited]
        rw [hv]
        simp
      · simp only [walkSteps, hp, hb, if_true]
        refine ⟨[String.mk n], ?_⟩
        have := (scanRRs_frame (blookup b (String.mk n)).1 norig n
          (blookup b (String.mk n)).1 (walkStep1 b norig n st)).2.2.2
        rw [walkScan, this, walkStep1_visited]
    · simp only [walkSteps, hp]
      rcases ih (if st.firsterr = none then { walkStep1 b norig n st with firsterr := some e }
                 else walkStep1 b norig n st) with ⟨new2, h2⟩
      refine ⟨String.mk n :: new2, ?_⟩
      rw [h2]
      split
      · show ({ walkStep1 b norig n st with firsterr := some e }).visited ++ new2 = _
        have : ({ walkStep1 b norig n st with firsterr := some e }).visited =
            (walkStep1 b norig n st).visited := rfl
        rw [this, walkStep1_visited]
        simp
      · rw [walkStep1_visited]
        simp

theorem walkSteps_soa (b : Backend) (norig : List Char) :
    ∀ (chain : List (List Char)) (st : WalkState),
      st.soa = none →
      ∃ new, (walkSteps b norig st chain).visited = st.visited ++ new ∧
        ((walkSteps b norig st chain).soa = none ↔
          ∀ s2 ∈ new, soaVisible b s2 = false) := by
  intro chain
  induction chain with
  | nil => intro st hs; exact ⟨[], by simp [walkSteps, hs]⟩
  | cons n rest ih =>
    intro st hs
    have hfr := scanRRs_frame (blookup b (String.mk n)).1 norig n
      (blookup b (String.mk n)).1 (walkStep1 b norig n st)
    have hw1 := walkStep1_frame b norig n st
    rcases hp : (blookup b (String.mk n)).2 with _ | e
    · rcases hb : (walkScan b norig n st).2 with _ | _
      · -- no SOA at this level, walk continues
        simp only [walkSteps, hp, hb, if_false, Bool.false_eq_true]
        have hsoa2 : (walkScan b norig n st).1.soa = none := by
          have := (scanRRs_not_broke (blookup b (String.mk n)).1 norig n
            (blookup b (String.mk n)).1 (walkStep1 b norig n st) (by rw [walkScan] at hb; exact hb)).1
          rw [walkScan, this, hw1.1, hs]
        rcases ih ((walkScan b norig n st).1) hsoa2 with ⟨new2, h2, hiff⟩
        have hv : (walkScan b norig n st).1.visited = st.visited ++ [String.mk n] := by
          rw [walkScan, hfr.2.2.2, walkStep1_visited]
        refine ⟨String.mk n :: new2, ?_, ?_⟩
        · rw [h2, hv]; simp
        · have hnsoa : soaVisible b (String.mk n) = false := by
            have hei : soaIn (blookup b (String.mk n)).1 = false := by
              have := scanRRs_broke_eq (blookup b (String.mk n)).1 norig n
                (blookup b (String.mk n)).1 (walkStep1 b norig n st)
              rw [walkScan] at hb
              rw [← this, hb]
            simp [soaVisible, hei]
          rw [hiff]
          constructor
          · intro hall s2 hmem
            rcases List.mem_cons.1 hmem with h | h
            · rw [h]; exact hnsoa
            · exact hall s2 h
          · intro hall s2 hmem
            exact hall s2 (List.mem_cons_of_mem _ hmem)
      · -- SOA found at this level, walk stops
        simp only [walkSteps, hp, hb, if_true]
        have hsoa2 : (walkScan b norig n st).1.soa ≠ none := by
          rw [walkScan]
          exact scanRRs_broke_soa (blookup b (String.mk n)).1 norig n
            (blookup b (String.mk n)).1 (walkStep1 b norig n st)
            (by rw [hw1.1, hs]) (by rw [walkScan] at hb; exact hb)
        have hv : (walkScan b norig n st).1.visited = st.visited ++ [String.mk n] := by
          rw [walkScan, hfr.2.2.2, walkStep1_visited]
        refine ⟨[String.mk n], hv, ?_⟩
        have hsv : soaVisible b (String.mk n) = true := by
          have hei : soaIn (blookup b (String.mk n)).1 = true := by
            have := scanRRs_broke_eq (blookup b (String.mk n)).1 norig n
              (blookup b (String.mk n)).1 (walkStep1 b norig n st)
            rw [walkScan] at hb
            rw [← this, hb]
          simp [soaVisible, hei, hp]
        constructor
        · intro h; exact absurd h hsoa2
        · intro hall
          have := hall (String.mk n) (by simp)
          rw [hsv] at this; cases this
    · -- lookup failed at this level, walk continues
      simp only [walkSteps, hp]
      have hnsoa : soaVisible b (String.mk n) = false := by
        simp [soaVisible, hp]
      have hsoa2 : (if st.firsterr = none then { walkStep1 b norig n st with firsterr := some e }
                    else walkStep1 b norig n st).soa = none := by
        split
        · show (walkStep1 b norig n st).soa = none
          rw [hw1.1, hs]
        · rw [hw1.1, hs]
      rcases ih _ hsoa2 with ⟨new2, h2, hiff⟩
      have hv : (if st.firsterr = none then { walkStep1 b norig n st with firsterr := some e }
                 else walkStep1 b norig n st).visited = st.visited ++ [String.mk n] := by
        split
        · show (walkStep1 b norig n st).visited = _
          rw [walkStep1_visited]
        · rw [walkStep1_visited]
      refine ⟨String.mk n :: new2, ?_, ?_⟩
      · rw [h2, hv]; simp
      · rw [hiff]
        constructor
        · intro hall s2 hmem
          rcases List.mem_cons.1 hmem with h | h
          · rw [h]; exact hnsoa
          · exact hall s2 h
        · intro hall s2 hmem
          exact hall s2 (List.mem_cons_of_mem _ hmem)

theorem walkSteps_orig_frozen (b : Backend) (norig : List Char) :
    ∀ (chain : List (List Char)) (st : WalkState),
      (∀ n ∈ chain, ¬ n.length = norig.length) →
      (walkSteps b norig st chain).origq = st.origq ∧
      (walkSteps b norig st chain).origerr = st.origerr := by
  intro chain
  induction chain with
  | nil => intro st _; simp [walkSteps]
  | cons n rest ih =>
    intro st hlen
    have hne : ¬ n.length = norig.length := hlen n (by simp)
    have hrest : ∀ m ∈ rest, ¬ m.length = norig.length :=
      fun m hm => hlen m (List.mem_cons_of_mem _ hm)
    have hfr := scanRRs_frame (blookup b (String.mk n)).1 norig n
      (blookup b (String.mk n)).1 (walkStep1 b norig n st)
    have hw1q : (walkStep1 b norig n st).origq = st.origq := by
      unfold walkStep1; rw [if_neg hne]
    have hw1e : (walkStep1 b norig n st).origerr = st.origerr := by
      unfold walkStep1; rw [if_neg hne]
    rcases hp : (blookup b (String.mk n)).2 with _ | e
    · rcases hb : (walkScan b norig n st).2 with _ | _
      · simp only [walkSteps, hp, hb, if_false, Bool.false_eq_true]
        rcases ih ((walkScan b norig n st).1) hrest with ⟨h1, h2⟩
        rw [h1, h2, walkScan, hfr.1, hfr.2.1, hw1q, hw1e]
        exact ⟨rfl, rfl⟩
      · simp only [walkSteps, hp, hb, if_true]
        rw [walkScan, hfr.1, hfr.2.1, hw1q, hw1e]
        exact ⟨rfl, rfl⟩
    · simp only [walkSteps, hp]
      have hq : (if st.firsterr = none then { walkStep1 b norig n st with firsterr := some e }
                 else walkStep1 b norig n st).origq = st.origq := by
        split
        · show (walkStep1 b norig n st).origq = _; exact hw1q
        · exact hw1q
      have he : (if st.firsterr = none then { walkStep1 b norig n st with firsterr := some e }
                 else walkStep1 b norig n st).origerr = st.origerr := by
        split
        · show (walkStep1 b norig n st).origerr = _; exact hw1e
        · exact hw1e
      rcases ih _ hrest with ⟨h1, h2⟩
      rw [h1, h2, hq, he]
      exact ⟨rfl, rfl⟩

theorem walkSteps_firstNS_frozen (b : Backend) (norig : List Char) :
    ∀ (chain : List (List Char)) (st : WalkState),
      ¬ st.firstNSAtLen < 0 →
      (walkSteps b norig st chain).firstNSAtLen = st.firstNSAtLen ∧
      (walkSteps b norig st chain).delegationPoint = st.delegationPoint ∧
      (walkSteps b norig st chain).queryIsAtDelegationPoint = st.queryIsAtDelegationPoint := by
  intro chain
  induction chain with
  | nil => intro st _; simp [walkSteps]
  | cons n rest ih =>
    intro st hge
    have hw1 := walkStep1_frame b norig n st
    have hge1 : ¬ (walkStep1 b norig n st).firstNSAtLen < 0 := by
      rw [hw1.2.2.2.1]; exact hge
    have hsc := scanRRs_firstNS_frozen (blookup b (String.mk n)).1 norig n
      (blookup b (String.mk n)).1 (walkStep1 b norig n st) hge1
    rcases hp : (blookup b (String.mk n)).2 with _ | e
    · rcases hb : (walkScan b norig n st).2 with _ | _
      · simp only [walkSteps, hp, hb, if_false, Bool.false_eq_true]
        have hge2 : ¬ (walkScan b norig n st).1.firstNSAtLen < 0 := by
          rw [walkScan, hsc.1, hw1.2.2.2.1]; exact hge
        rcases ih ((walkScan b norig n st).1) hge2 with ⟨h1, h2, h3⟩
        rw [h1, h2, h3, walkScan, hsc.1, hsc.2.1, hsc.2.2,
            hw1.2.2.2.1, hw1.2.2.2.2.2.1, hw1.2.2.2.2.2.2]
        exact ⟨rfl, rfl, rfl⟩
      · simp only [walkSteps, hp, hb, if_true]
        rw [walkScan, hsc.1, hsc.2.1, hsc.2.2,
            hw1.2.2.2.1, hw1.2.2.2.2.2.1, hw1.2.2.2.2.2.2]
        exact ⟨rfl, rfl, rfl⟩
    · simp only [walkSteps, hp]
      have hge2 : ¬ (if st.firsterr = none then { walkStep1 b norig n st with firsterr := some e }
                     else walkStep1 b norig n st).firstNSAtLen < 0 := by
        split
        · show ¬ (walkStep1 b norig n st).firstNSAtLen < 0; exact hge1
        · exact hge1
      rcases ih _ hge2 with ⟨h1, h2, h3⟩
      rw [h1, h2, h3]
      split
      · exact ⟨hw1.2.2.2.1, hw1.2.2.2.2.2.1, hw1.2.2.2.2.2.2⟩
      · exact ⟨hw1.2.2.2.1, hw1.2.2.2.2.2.1, hw1.2.2.2.2.2.2⟩

theorem walkSteps_firstNS (b : Backend) (norig : List Char) :
    ∀ (chain : List (List Char)) (st : WalkState),
      st.firstNSAtLen < 0 →
      st.queryIsAtDelegationPoint = false →
      ∃ new, (walkSteps b norig st chain).visited = st.visited ++ new ∧
        (new.find? (fun s2 => nsVisible b s2) = none →
          (walkSteps b norig st chain).firstNSAtLen = st.firstNSAtLen ∧
          (walkSteps b norig st chain).delegationPoint = st.delegationPoint ∧
          (walkSteps b norig st chain).queryIsAtDelegationPoint = false) ∧
        (∀ m, new.find? (fun s2 => nsVisible b s2) = some m →
          (walkSteps b norig st chain).firstNSAtLen = (m.length : Int) ∧
          (walkSteps b norig st chain).delegationPoint = absname m ∧
          ((walkSteps b norig st chain).queryIsAtDelegationPoint = true ↔
            m = String.mk norig)) := by
  intro chain
  induction chain with
  | nil =>
    intro st hlt hq
    refine ⟨[], by simp [walkSteps], ?_, ?_⟩
    · intro _; exact ⟨rfl, rfl, hq⟩
    · intro m hm; simp at hm
  | cons n rest ih =>
    intro st hlt hq
    have hw1 := walkStep1_frame b norig n st
    have hlt1 : (walkStep1 b norig n st).firstNSAtLen < 0 := by
      rw [hw1.2.2.2.1]; exact hlt
    rcases hp : (blookup b (String.mk n)).2 with _ | e
    · -- successful lookup at this level
      have hnv : nsVisible b (String.mk n) = nsBeforeSOA (blookup b (String.mk n)).1 := by
        simp [nsVisible, hp]
      have hset := scanRRs_firstNS_set (blookup b (String.mk n)).1 norig n
        (blookup b (String.mk n)).1 (walkStep1 b norig n st) hlt1
      rcases hb : (walkScan b norig n st).2 with _ | _
      · -- continue walking
        rcases hnb : nsBeforeSOA (blookup b (String.mk n)).1 with _ | _
        · -- no NS at this level
          have hkeep := hset.2 hnb
          have hlt2 : (walkScan b norig n st).1.firstNSAtLen < 0 := by
            rw [walkScan, hkeep.1, hw1.2.2.2.1]; exact hlt
          have hq2 : (walkScan b norig n st).1.queryIsAtDelegationPoint = false := by
            rw [walkScan, hkeep.2.2, hw1.2.2.2.2.2.2]; exact hq
          simp only [walkSteps, hp, hb, if_false, Bool.false_eq_true]
          rcases ih ((walkScan b norig n st).1) hlt2 hq2 with ⟨new2, hv2, hnone, hsome⟩
          have hv : (walkScan b norig n st).1.visited = st.visited ++ [String.mk n] := by
            rw [walkScan,
              (scanRRs_frame (blookup b (String.mk n)).1 norig n
                (blookup b (String.mk n)).1 (walkStep1 b norig n st)).2.2.2,
              walkStep1_visited]
          refine ⟨String.mk n :: new2, by rw [hv2, hv]; simp, ?_, ?_⟩
          · intro hfind
            rw [List.find?_cons] at hfind
            rw [hnv, hnb] at hfind
            rcases hnone hfind with ⟨h1, h2, h3⟩
            refine ⟨?_, ?_, h3⟩
            · rw [h1, walkScan, hkeep.1, hw1.2.2.2.1]
            · rw [h2, walkScan, hkeep.2.1, hw1.2.2.2.2.2.1]
          · intro m hfind
            rw [List.find?_cons] at hfind
            rw [hnv, hnb] at hfind
            exact hsome m hfind
        · -- first NS found at this level
          have hsetv := hset.1 hnb
          have hge2 : ¬ (walkScan b norig n st).1.firstNSAtLen < 0 := by
            rw [walkScan, hsetv.1]
            simp
          simp only [walkSteps, hp, hb, if_false, Bool.false_eq_true]
          have hfz := walkSteps_firstNS_frozen b norig rest ((walkScan b norig n st).1) hge2
          rcases walkSteps_visited_mono b norig rest ((walkScan b norig n st).1) with ⟨new2, hv2⟩
          have hv : (walkScan b norig n st).1.visited = st.visited ++ [String.mk n] := by
            rw [walkScan,
              (scanRRs_frame (blookup b (String.mk n)).1 norig n
                (blookup b (String.mk n)).1 (walkStep1 b norig n st)).2.2.2,
              walkStep1_visited]
          refine ⟨String.mk n :: new2, by rw [hv2, hv]; simp, ?_, ?_⟩
          · intro hfind
            rw [List.find?_cons] at hfind
            rw [hnv, hnb] at hfind
            simp at hfind
          · intro m hfind
            rw [List.find?_cons] at hfind
            rw [hnv, hnb] at hfind
            simp only [Option.some.injEq] at hfind
            subst hfind
            have hqv : (walkScan b norig n st).1.queryIsAtDelegationPoint =
                (if n = norig then true else false) := by
              rw [walkScan, hsetv.2.2, hw1.2.2.2.2.2.2, hq]
            refine ⟨?_, ?_, ?_⟩
            · rw [hfz.1, walkScan, hsetv.1]
              rfl
            · rw [hfz.2.1, walkScan, hsetv.2.1]
            · rw [hfz.2.2, hqv]
              by_cases hn : n = norig
              · simp [hn]
              · simp only [if_neg hn]
                constructor
                · intro h; cases h
                · intro h
                  exact absurd (by injection h) hn
      · -- SOA broke the walk at this level
        simp only [walkSteps, hp, hb, if_true]
        have hv : (walkScan b norig n st).1.visited = st.visited ++ [String.mk n] := by
          rw [walkScan,
            (scanRRs_frame (blookup b (String.mk n)).1 norig n
              (blookup b (String.mk n)).1 (walkStep1 b norig n st)).2.2.2,
            walkStep1_visited]
        refine ⟨[String.mk n], hv, ?_, ?_⟩
        · intro hfind
          rw [List.find?_cons] at hfind
          rcases hnb : nsBeforeSOA (blookup b (String.mk n)).1 with _ | _
          · rcases (hset.2 hnb) with ⟨h1, h2, h3⟩
            refine ⟨?_, ?_, ?_⟩
            · rw [walkScan, h1, hw1.2.2.2.1]
            · rw [walkScan, h2, hw1.2.2.2.2.2.1]
            · rw [walkScan, h3, hw1.2.2.2.2.2.2]; exact hq
          · rw [hnv, hnb] at hfind
            simp at hfind
        · intro m hfind
          rw [List.find?_cons] at hfind
          rcases hnb : nsBeforeSOA (blookup b (String.mk n)).1 with _ | _
          · rw [hnv, hnb] at hfind
            simp at hfind
          · rw [hnv, hnb] at hfind
            simp only [Option.some.injEq] at hfind
            subst hfind
            have hsetv := hset.1 hnb
            refine ⟨?_, ?_, ?_⟩
            · rw [walkScan, hsetv.1]; rfl
            · rw [walkScan, hsetv.2.1]
            · rw [walkScan, hsetv.2.2, hw1.2.2.2.2.2.2, hq]
              by_cases hn : n = norig
              · simp [hn]
              · simp only [if_neg hn]
                constructor
                · intro h; cases h
                · intro h
                  exact absurd (by injection h) hn
    · -- failed lookup at this level
      have hnv : nsVisible b (String.mk n) = false := by
        simp [nsVisible, hp]
      simp only [walkSteps, hp]
      have hlt2 : (if st.firsterr = none then { walkStep1 b norig n st with firsterr := some e }
                   else walkStep1 b norig n st).firstNSAtLen < 0 := by
        split
        · show (walkStep1 b norig n st).firstNSAtLen < 0; exact hlt1
        · exact hlt1
      have hq2 : (if st.firsterr = none then { walkStep1 b norig n st with firsterr := some e }
                  else walkStep1 b norig n st).queryIsAtDelegationPoint = false := by
        split
        · show (walkStep1 b norig n st).queryIsAtDelegationPoint = false
          rw [hw1.2.2.2.2.2.2]; exact hq
        · rw [hw1.2.2.2.2.2.2]; exact hq
      have hv : (if st.firsterr = none then { walkStep1 b norig n st with firsterr := some e }
                 else walkStep1 b norig n st).visited = st.visited ++ [String.mk n] := by
        split
        · show (walkStep1 b norig n st).visited = _; rw [walkStep1_visited]
        · rw [walkStep1_visited]
      have hfns : (if st.firsterr = none then { walkStep1 b norig n st with firsterr := some e }
                   else walkStep1 b norig n st).firstNSAtLen = st.firstNSAtLen := by
        split
        · show (walkStep1 b norig n st).firstNSAtLen = _; exact hw1.2.2.2.1
        · exact hw1.2.2.2.1
      have hdp : (if st.firsterr = none then { walkStep1 b norig n st with firsterr := some e }
                  else walkStep1 b norig n st).delegationPoint = st.delegationPoint := by
        split
        · show (walkStep1 b norig n st).delegationPoint = _; exact hw1.2.2.2.2.2.1
        · exact hw1.2.2.2.2.2.1
      rcases ih _ hlt2 hq2 with ⟨new2, hv2, hnone, hsome⟩
      refine ⟨String.mk n :: new2, by rw [hv2, hv]; simp, ?_, ?_⟩
      · intro hfind
        rw [List.find?_cons] at hfind
        rw [hnv] at hfind
        rcases hnone hfind with ⟨h1, h2, h3⟩
        exact ⟨by rw [h1, hfns], by rw [h2, hdp], h3⟩
      · intro m hfind
        rw [List.find?_cons] at hfind
        rw [hnv] at hfind
        exact hsome m hfind

theorem walkSteps_nss (b : Backend) (norig : List Char) :
    ∀ (chain : List (List Char)) (st : WalkState),
      ∃ new, (walkSteps b norig st chain).visited = st.visited ++ new ∧
        (walkSteps b norig st chain).nss =
          new.foldl (fun acc s2 => if nsVisible b s2 = true then (blookup b s2).1 else acc)
            st.nss := by
  intro chain
  induction chain with
  | nil => intro st; exact ⟨[], by simp [walkSteps], by simp [walkSteps]⟩
  | cons n rest ih =>
    intro st
    have hw1 := walkStep1_frame b norig n st
    rcases hp : (blookup b (String.mk n)).2 with _ | e
    · have hnv : nsVisible b (String.mk n) = nsBeforeSOA (blookup b (String.mk n)).1 := by
        simp [nsVisible, hp]
      have hnss : (walkScan b norig n st).1.nss =
          (if nsVisible b (String.mk n) = true then (blookup b (String.mk n)).1 else st.nss) := by
        rw [walkScan, scanRRs_nss, hw1.2.2.1, hnv]
      have hv : (walkScan b norig n st).1.visited = st.visited ++ [String.mk n] := by
        rw [walkScan,
          (scanRRs_frame (blookup b (String.mk n)).1 norig n
            (blookup b (String.mk n)).1 (walkStep1 b norig n st)).2.2.2,
          walkStep1_visited]
      rcases hb : (walkScan b norig n st).2 with _ | _
      · simp only [walkSteps, hp, hb, if_false, Bool.false_eq_true]
        rcases ih ((walkScan b norig n st).1) with ⟨new2, hv2, hn2⟩
        refine ⟨String.mk n :: new2, by rw [hv2, hv]; simp, ?_⟩
        rw [hn2, hnss]
        simp [List.foldl_cons]
      · simp only [walkSteps, hp, hb, if_true]
        refine ⟨[String.mk n], hv, ?_⟩
        rw [hnss]
        simp [List.foldl_cons]
    · have hnv : nsVisible b (String.mk n) = false := by
        simp [nsVisible, hp]
      simp only [walkSteps, hp]
      have hv : (if st.firsterr = none then { walkStep1 b norig n st with firsterr := some e }
                 else walkStep1 b norig n st).visited = st.visited ++ [String.mk n] := by
        split
        · show (walkStep1 b norig n st).visited = _; rw [walkStep1_visited]
        · rw [walkStep1_visited]
      have hnss : (if st.firsterr = none then { walkStep1 b norig n st with firsterr := some e }
                   else walkStep1 b norig n st).nss = st.nss := by
        split
        · show (walkStep1 b norig n st).nss = _; exact hw1.2.2.1
        · exact hw1.2.2.1
      rcases ih _ with ⟨new2, hv2, hn2⟩
      refine ⟨String.mk n :: new2, by rw [hv2, hv]; simp, ?_⟩
      rw [hn2, hnss]
      simp [List.foldl_cons, hnv]

theorem foldl_if_last {α β : Type} (p : α → Bool) (g : α → β) :
    ∀ (l : List α) (acc : β),
      l.foldl (fun a x => if p x = true then g x else a) acc =
        (match (l.filter p).getLast? with
         | none => acc
         | some m => g m) := by
  intro l
  induction l with
  | nil => intro acc; simp
  | cons x rest ih =>
    intro acc
    rcases hx : p x with _ | _
    · rw [List.foldl_cons, List.filter_cons, if_neg (by simp [hx])]
      rw [if_neg (by simp [hx])]
      exact ih acc
    · rw [List.foldl_cons, List.filter_cons, if_pos (by simp [hx]), if_pos (by simp [hx])]
      rw [ih (g x)]
      rcases hfr : rest.filter p with _ | ⟨y, l2⟩
      · simp
      · rw [show (x :: y :: l2).getLast? = (y :: l2).getLast? from
          List.getLast?_append_of_ne_nil [x] (by simp)]
        rfl

/-! ## Suffix-chain lemmas -/

theorem suffixes_nil : suffixes [] = [] := rfl

theorem suffixes_eq (n : List Char) (hn : ¬ n = []) :
    suffixes n = n :: (match dropThroughDot n with
                       | none => []
                       | some n2 => suffixes n2) := by
  show suffixesFuel (n.length + 1) n = _
  simp only [suffixesFuel, if_neg hn]
  congr 1
  rcases hd : dropThroughDot n with _ | n2
  · rfl
  · simp only [hd]
    exact suffixesFuel_irrel n.length (n2.length + 1) n2
      (dropThroughDot_length_lt n n2 hd) (by omega)

theorem mem_suffixes_length_le :
    ∀ (k : Nat) (n m : List Char), n.length ≤ k → m ∈ suffixes n → m.length ≤ n.length := by
  intro k
  induction k with
  | zero =>
    intro n m hk hm
    have hn : n = [] := List.length_eq_zero.1 (Nat.le_zero.1 hk)
    rw [hn, suffixes_nil] at hm
    simp at hm
  | succ k ih =>
    intro n m hk hm
    by_cases hn : n = []
    · rw [hn, suffixes_nil] at hm; simp at hm
    · rw [suffixes_eq n hn] at hm
      rcases List.mem_cons.1 hm with h | h
      · rw [h]
      · rcases hd : dropThroughDot n with _ | n2
        · rw [hd] at h; simp at h
        · rw [hd] at h
          have hlt := dropThroughDot_length_lt n n2 hd
          have := ih n2 m (by omega) h
          omega

/-! ## Zone-walk corollaries -/

theorem zoneWalk_eq (b : Backend) (qname : String) :
    zoneWalk b qname =
      walkSteps b (trimRightDots qname).data
        { soa := none, origq := [], origerr := none, firsterr := none, nss := [],
          firstNSAtLen := -1, firstSOAAtLen := -1, delegationPoint := "",
          queryIsAtDelegationPoint := false, visited := [] }
        (suffixes (trimRightDots qname).data) := rfl

theorem zoneWalk_soa_iff (b : Backend) (qname : String) :
    ((zoneWalk b qname).soa = none ↔
      ∀ s2 ∈ (zoneWalk b qname).visited, soaVisible b s2 = false) := by
  rcases walkSteps_soa b (trimRightDots qname).data (suffixes (trimRightDots qname).data)
      { soa := none, origq := [], origerr := none, firsterr := none, nss := [],
        firstNSAtLen := -1, firstSOAAtLen := -1, delegationPoint := "",
        queryIsAtDelegationPoint := false, visited := [] } rfl with ⟨new, hv, hiff⟩
  rw [zoneWalk_eq]
  have hnew : new = (walkSteps b (trimRightDots qname).data
      { soa := none, origq := [], origerr := none, firsterr := none, nss := [],
        firstNSAtLen := -1, firstSOAAtLen := -1, delegationPoint := "",
        queryIsAtDelegationPoint := false, visited := [] }
      (suffixes (trimRightDots qname).data)).visited := by
    rw [hv]; simp
  rw [hnew] at hiff
  exact hiff

theorem zoneWalk_firstNS_none (b : Backend) (qname : String) :
    (∀ s2 ∈ (zoneWalk b qname).visited, nsVisible b s2 = false) →
    (zoneWalk b qname).firstNSAtLen = -1 ∧
    (zoneWalk b qname).delegationPoint = "" ∧
    (zoneWalk b qname).queryIsAtDelegationPoint = false := by
  intro hall
  rcases walkSteps_firstNS b (trimRightDots qname).data (suffixes (trimRightDots qname).data)
      { soa := none, origq := [], origerr := none, firsterr := none, nss := [],
        firstNSAtLen := -1, firstSOAAtLen := -1, delegationPoint := "",
        queryIsAtDelegationPoint := false, visited := [] }
      (by norm_num) rfl with ⟨new, hv, hnone, hsome⟩
  rw [zoneWalk_eq] at hall ⊢
  have hnew : new = (walkSteps b (trimRightDots qname).data
      { soa := none, origq := [], origerr := none, firsterr := none, nss := [],
        firstNSAtLen := -1, firstSOAAtLen := -1, delegationPoint := "",
        queryIsAtDelegationPoint := false, visited := [] }
      (suffixes (trimRightDots qname).data)).visited := by
    rw [hv]; simp
  rcases hfind : new.find? (fun s2 => nsVisible b s2) with _ | m
  · exact hnone hfind
  · have hm := List.find?_some hfind
    have hmem := List.mem_of_find?_eq_some hfind
    rw [hnew] at hmem
    rw [hall m hmem] at hm
    cases hm

theorem zoneWalk_firstNS_found (b : Backend) (qname : String) (m : String) :
    (zoneWalk b qname).visited.find? (fun s2 => nsVisible b s2) = some m →
    (zoneWalk b qname).firstNSAtLen = (m.length : Int) ∧
    (zoneWalk b qname).delegationPoint = absname m ∧
    ((zoneWalk b qname).queryIsAtDelegationPoint = true ↔ m = trimRightDots qname) := by
  intro hfind
  rcases walkSteps_firstNS b (trimRightDots qname).data (suffixes (trimRightDots qname).data)
      { soa := none, origq := [], origerr := none, firsterr := none, nss := [],
        firstNSAtLen := -1, firstSOAAtLen := -1, delegationPoint := "",
        queryIsAtDelegationPoint := false, visited := [] }
      (by norm_num) rfl with ⟨new, hv, hnone, hsome⟩
  rw [zoneWalk_eq] at hfind ⊢
  have hnew : new = (walkSteps b (trimRightDots qname).data
      { soa := none, origq := [], origerr := none, firsterr := none, nss := [],
        firstNSAtLen := -1, firstSOAAtLen := -1, delegationPoint := "",
        queryIsAtDelegationPoint := false, visited := [] }
      (suffixes (trimRightDots qname).data)).visited := by
    rw [hv]; simp
  rw [← hnew] at hfind
  exact hsome m hfind

theorem zoneWalk_nss_eq (b : Backend) (qname : String) :
    (zoneWalk b qname).nss =
      (zoneWalk b qname).visited.foldl
        (fun acc s2 => if nsVisible b s2 = true then (blookup b s2).1 else acc) [] := by
  rcases walkSteps_nss b (trimRightDots qname).data (suffixes (trimRightDots qname).data)
      { soa := none, origq := [], origerr := none, firsterr := none, nss := [],
        firstNSAtLen := -1, firstSOAAtLen := -1, delegationPoint := "",
        queryIsAtDelegationPoint := false, visited := [] } with ⟨new, hv, hn⟩
  rw [zoneWalk_eq]
  have hnew : new = (walkSteps b (trimRightDots qname).data
      { soa := none, origq := [], origerr := none, firsterr := none, nss := [],
        firstNSAtLen := -1, firstSOAAtLen := -1, delegationPoint := "",
        queryIsAtDelegationPoint := false, visited := [] }
      (suffixes (trimRightDots qname).data)).visited := by
    rw [hv]; simp
  rw [hn, hnew]

theorem walkSteps_orig_head (b : Backend) (norig : List Char)
    (rest : List (List Char)) (st : WalkState)
    (htail : ∀ m ∈ rest, ¬ m.length = norig.length) :
    (walkSteps b norig st (norig :: rest)).origq = (blookup b (String.mk norig)).1 ∧
    (walkSteps b norig st (norig :: rest)).origerr = (blookup b (String.mk norig)).2 := by
  have hw1q : (walkStep1 b norig norig st).origq = (blookup b (String.mk norig)).1 := by
    unfold walkStep1; rw [if_pos rfl]
  have hw1e : (walkStep1 b norig norig st).origerr = (blookup b (String.mk norig)).2 := by
    unfold walkStep1; rw [if_pos rfl]
  have hfr := scanRRs_frame (blookup b (String.mk norig)).1 norig norig
    (blookup b (String.mk norig)).1 (walkStep1 b norig norig st)
  rcases hp : (blookup b (String.mk norig)).2 with _ | e
  · rcases hb : (walkScan b norig norig st).2 with _ | _
    · simp only [walkSteps, hp, hb, if_false, Bool.false_eq_true]
      rcases walkSteps_orig_frozen b norig rest
        ((walkScan b norig norig st).1) htail with ⟨h1, h2⟩
      rw [h1, h2, walkScan, hfr.1, hfr.2.1, hw1q, hw1e, hp]
      exact ⟨rfl, rfl⟩
    · simp only [walkSteps, hp, hb, if_true]
      rw [walkScan, hfr.1, hfr.2.1, hw1q, hw1e, hp]
      exact ⟨rfl, rfl⟩
  · simp only [walkSteps, hp]
    rcases walkSteps_orig_frozen b norig rest
      (if st.firsterr = none then { walkStep1 b norig norig st with firsterr := some e }
       else walkStep1 b norig norig st) htail with ⟨h1, h2⟩
    rw [h1, h2]
    constructor
    · split
      · show (walkStep1 b norig norig st).origq = _
        exact hw1q
      · exact hw1q
    · split
      · show (walkStep1 b norig norig st).origerr = _
        rw [hw1e, hp]
      · rw [hw1e, hp]

theorem zoneWalk_orig (b : Backend) (qname : String)
    (h : ¬ (trimRightDots qname).data = []) :
    (zoneWalk b qname).origq = (blookup b (trimRightDots qname)).1 ∧
    (zoneWalk b qname).origerr = (blookup b (trimRightDots qname)).2 := by
  have htail : ∀ m ∈ (match dropThroughDot (trimRightDots qname).data with
                      | none => ([] : List (List Char))
                      | some n2 => suffixes n2), ¬ m.length = (trimRightDots qname).data.length := by
    rcases hd : dropThroughDot (trimRightDots qname).data with _ | n2
    · intro m hm; simp at hm
    · intro m hm
      simp only at hm
      have h1 := mem_suffixes_length_le n2.length n2 m (Nat.le_refl _) hm
      have h2 := dropThroughDot_length_lt (trimRightDots qname).data n2 hd
      omega
  rw [zoneWalk_eq, suffixes_eq _ h]
  exact walkSteps_orig_head b (trimRightDots qname).data _ _ htail

/-! ## Concrete fixtures (used by witnesses and counterexamples) -/

def mkSOA (owner : String) : RR :=
  { hdr := { name := owner, rrtype := TypeSOA, rclass := ClassINET, ttl := 600 },
    rdata := RData.soaData }

def mkNS (owner target : String) : RR :=
  { hdr := { name := owner, rrtype := TypeNS, rclass := ClassINET, ttl := 600 },
    rdata := RData.nsData target }

def mkA (owner addr : String) : RR :=
  { hdr := { name := owner, rrtype := TypeA, rclass := ClassINET, ttl := 600 },
    rdata := RData.aData addr }

def mkDS (owner : String) : RR :=
  { hdr := { name := owner, rrtype := TypeDS, rclass := ClassINET, ttl := 600 },
    rdata := RData.dsData 7 }

def mkCNAME (owner target : String) : RR :=
  { hdr := { name := owner, rrtype := TypeCNAME, rclass := ClassINET, ttl := 600 },
    rdata := RData.cnameData target }

def mkDNSKEY (owner : String) (flags : Nat) : RR :=
  { hdr := { name := owner, rrtype := TypeDNSKEY, rclass := ClassINET, ttl := 3600 },
    rdata := RData.dnskeyData flags 3 8 "PUBKEY" }

/-- A small zone `example.` with a host, a nameserver, and a signed
delegation at `sub.example.`. -/
def b1 : Backend := fun n =>
  if n = "example" then ([mkSOA "example.", mkNS "example." "ns1.example."], none)
  else if n = "host.example" then ([mkA "host.example." "10.0.0.2"], none)
  else if n = "ns1.example" then ([mkA "ns1.example." "10.0.0.1"], none)
  else if n = "sub.example" then
    ([mkNS "sub.example." "ns1.sub.example.", mkDS "sub.example."], none)
  else ([], some NCErr.noSuchDomain)

/-- A backend with NS records at two levels of the walk above the apex
SOA. -/
def b2 : Backend := fun n =>
  if n = "a.b.c" then ([mkNS "a.b.c." "ns1.x."], none)
  else if n = "b.c" then ([mkNS "b.c." "ns2.y."], none)
  else if n = "c" then ([mkSOA "c."], none)
  else ([], some NCErr.noSuchDomain)

/-- A backend that knows no name at all (no SOA anywhere). -/
def bNone : Backend := fun _ => ([], some NCErr.noSuchDomain)

def cfg0 : ServerConfig :=
  { bind := ":53", publicKey := "ncdns.key", privateKey := "ncdns.private",
    zonePublicKey := "", zonePrivateKey := "", namecoinRPCUsername := "",
    namecoinRPCPassword := "", namecoinRPCAddress := "localhost:8336",
    cacheMaxEntries := 1000, selfIP := "127.127.127.127", selfName := "" }

/-- A stand-in hash function for the abstract `dns.HashName` parameter. -/
def env0 : Env :=
  { hashName := fun n _ _ _ => "HH" ++ n }

def srv1 : Server :=
  { ksk := mkDNSKEY "ncdns." 257, kskPrivate := "kskpriv",
    zsk := mkDNSKEY "ncdns." 256, zskPrivate := "zskpriv",
    cfg := cfg0, b := b1 }

def oneQuestion (n : String) (t : Nat) : Request :=
  { questions := [{ name := n, qtype := t, qclass := ClassINET }], dnssecOK := true }

/-! ## Claim C1 -/

/-- C1: after the zone walk, the resolver yields `NotInZone` exactly
when no SOA record was seen at any visited name; otherwise the
authoritative branch — carrying the records and error observed at the
original qname, which are the `blookup` results at the trimmed qname —
is taken iff `firstSOAAtLen ≥ firstNSAtLen`, where `firstNSAtLen`
stays `-1` when no visited name bore an NS record; in particular an NS
set at the same level as the SOA selects the authoritative branch and
an NS set at a strictly longer name selects the delegation branch. -/
theorem C1_zone_walk_classification (b : Backend) (qname : String) :
    (classify b qname = Branch.notInZone ↔
      ∀ s2 ∈ (zoneWalk b qname).visited, soaVisible b s2 = false) ∧
    (¬ (zoneWalk b qname).soa = none →
      (classify b qname =
          Branch.authoritative (zoneWalk b qname).origq (zoneWalk b qname).origerr ↔
        (zoneWalk b qname).firstSOAAtLen ≥ (zoneWalk b qname).firstNSAtLen)) ∧
    (¬ (zoneWalk b qname).soa = none →
      (zoneWalk b qname).origq = (blookup b (trimRightDots qname)).1 ∧
      (zoneWalk b qname).origerr = (blookup b (trimRightDots qname)).2) ∧
    ((∀ s2 ∈ (zoneWalk b qname).visited, nsVisible b s2 = false) →
      (zoneWalk b qname).firstNSAtLen = -1) ∧
    (¬ (zoneWalk b qname).soa = none →
      (zoneWalk b qname).firstNSAtLen = (zoneWalk b qname).firstSOAAtLen →
      classify b qname =
        Branch.authoritative (zoneWalk b qname).origq (zoneWalk b qname).origerr) ∧
    (¬ (zoneWalk b qname).soa = none →
      (zoneWalk b qname).firstNSAtLen > (zoneWalk b qname).firstSOAAtLen →
      classify b qname = Branch.delegation (zoneWalk b qname).nss) := by
  have hauth : ∀ s : RR, (zoneWalk b qname).soa = some s →
      ((zoneWalk b qname).firstSOAAtLen ≥ (zoneWalk b qname).firstNSAtLen →
        classify b qname =
          Branch.authoritative (zoneWalk b qname).origq (zoneWalk b qname).origerr) ∧
      (¬ (zoneWalk b qname).firstSOAAtLen ≥ (zoneWalk b qname).firstNSAtLen →
        classify b qname = Branch.delegation (zoneWalk b qname).nss) := by
    intro s hsoa
    constructor
    · intro hge
      simp only [classify, hsoa, if_pos hge]
    · intro hge
      simp only [classify, hsoa, if_neg hge]
  refine ⟨?_, ?_, ?_, ?_, ?_, ?_⟩
  · rcases hsoa : (zoneWalk b qname).soa with _ | s
    · have h1 : classify b qname = Branch.notInZone := by
        simp only [classify, hsoa]
      rw [h1, ← zoneWalk_soa_iff b qname, hsoa]
      simp
    · have h1 : ¬ classify b qname = Branch.notInZone := by
        rcases hauth s hsoa with ⟨ha, hd⟩
        by_cases hge : (zoneWalk b qname).firstSOAAtLen ≥ (zoneWalk b qname).firstNSAtLen
        · rw [ha hge]; intro hc; cases hc
        · rw [hd hge]; intro hc; cases hc
      constructor
      · intro hc; exact absurd hc h1
      · intro hall
        have := (zoneWalk_soa_iff b qname).2 hall
        rw [hsoa] at this; cases this
  · intro hs
    rcases hsoa : (zoneWalk b qname).soa with _ | s
    · exact absurd hsoa hs
    · rcases hauth s hsoa with ⟨ha, hd⟩
      constructor
      · intro hc
        by_cases hge : (zoneWalk b qname).firstSOAAtLen ≥ (zoneWalk b qname).firstNSAtLen
        · exact hge
        · rw [hd hge] at hc; cases hc
      · exact ha
  · intro hs
    by_cases hn : (trimRightDots qname).data = []
    · exfalso
      apply hs
      rw [zoneWalk_eq, hn, suffixes_nil]
      simp [walkSteps]
    · exact zoneWalk_orig b qname hn
  · intro hall
    exact (zoneWalk_firstNS_none b qname hall).1
  · intro hs heq
    rcases hsoa : (zoneWalk b qname).soa with _ | s
    · exact absurd hsoa hs
    · exact (hauth s hsoa).1 (by omega)
  · intro hs hgt
    rcases hsoa : (zoneWalk b qname).soa with _ | s
    · exact absurd hsoa hs
    · exact (hauth s hsoa).2 (by omega)

/-- Witness for C1 at a concrete backend and query. -/
theorem C1_witness :
    classify b1 "host.example." =
      Branch.authoritative (zoneWalk b1 "host.example.").origq
        (zoneWalk b1 "host.example.").origerr ∧
    classify b2 "a.b.c." = Branch.delegation (zoneWalk b2 "a.b.c.").nss := by
  have h1 := C1_zone_walk_classification b1 "host.example."
  have h2 := C1_zone_walk_classification b2 "a.b.c."
  exact ⟨(h1.2.1 (by decide)).mpr (by decide),
         h2.2.2.2.2.2 (by decide) (by decide)⟩

/-! ## Claim C5 -/

/-- Counterexample to C5 as stated: with NS records at two names on the
walk (`a.b.c` and `b.c`) above the apex SOA (`c`), `delegationPoint` is
fixed by the first NS-bearing name, but `nss` — the record set handed
to the delegation branch — is overwritten at the second, so the
delegation branch does not operate on the records found at
`delegationPoint`. -/
theorem C5_counterexample :
    (zoneWalk b2 "a.b.c.").delegationPoint = "a.b.c." ∧
    classify b2 "a.b.c." = Branch.delegation [mkNS "b.c." "ns2.y."] ∧
    (blookup b2 "a.b.c").1 = [mkNS "a.b.c." "ns1.x."] ∧
    (blookup b2 "b.c").1 = [mkNS "b.c." "ns2.y."] ∧
    ¬ (zoneWalk b2 "a.b.c.").nss = (blookup b2 "a.b.c").1 := by
  decide

/-- C5 (amended): the first (longest) visited name bearing NS records
fixes `delegationPoint`, `firstNSAtLen`, and `queryIsAtDelegationPoint`
(true iff that name is the trimmed original qname); but `nss`, the set
the delegation branch operates on, is the record set looked up at the
*last* (shortest) NS-bearing name visited, which coincides with the
delegation point only when a single NS-bearing name is visited. -/
theorem C5_delegation_point_and_nss (b : Backend) (qname : String) :
    (∀ m, (zoneWalk b qname).visited.find? (fun s2 => nsVisible b s2) = some m →
      (zoneWalk b qname).firstNSAtLen = (m.length : Int) ∧
      (zoneWalk b qname).delegationPoint = absname m ∧
      ((zoneWalk b qname).queryIsAtDelegationPoint = true ↔ m = trimRightDots qname)) ∧
    ((zoneWalk b qname).visited.find? (fun s2 => nsVisible b s2) = none →
      (zoneWalk b qname).firstNSAtLen = -1 ∧
      (zoneWalk b qname).delegationPoint = "" ∧
      (zoneWalk b qname).queryIsAtDelegationPoint = false ∧
      (zoneWalk b qname).nss = []) ∧
    (∀ m, ((zoneWalk b qname).visited.filter (fun s2 => nsVisible b s2)).getLast? = some m →
      (zoneWalk b qname).nss = (blookup b m).1) ∧
    (¬ (zoneWalk b qname).soa = none →
      ¬ (zoneWalk b qname).firstSOAAtLen ≥ (zoneWalk b qname).firstNSAtLen →
      classify b qname = Branch.delegation (zoneWalk b qname).nss) := by
  have hnss := zoneWalk_nss_eq b qname
  rw [foldl_if_last (fun s2 => nsVisible b s2) (fun s2 => (blookup b s2).1)] at hnss
  refine ⟨?_, ?_, ?_, ?_⟩
  · intro m hfind
    have h := zoneWalk_firstNS_found b qname m hfind
    exact ⟨h.1, h.2.1, by
      constructor
      · intro hq
        have := (h.2.2).1 hq
        exact this
      · intro hm
        exact (h.2.2).2 hm⟩
  · intro hfind
    have hall : ∀ s2 ∈ (zoneWalk b qname).visited, nsVisible b s2 = false := by
      intro s2 hmem
      rcases hv : nsVisible b s2 with _ | _
      · rfl
      · have := List.find?_eq_none.1 hfind s2 hmem
        rw [hv] at this
        simp at this
    have h := zoneWalk_firstNS_none b qname hall
    refine ⟨h.1, h.2.1, h.2.2, ?_⟩
    have hfe : ((zoneWalk b qname).visited.filter (fun s2 => nsVisible b s2)) = [] := by
      rw [List.filter_eq_nil_iff]
      intro a ha
      rw [hall a ha]
      simp
    rw [hfe] at hnss
    exact hnss
  · intro m hlast
    rw [hlast] at hnss
    exact hnss
  · intro hs hge
    rcases hsoa : (zoneWalk b qname).soa with _ | s2
    · exact absurd hsoa hs
    · simp only [classify, hsoa, if_neg hge]

/-- Witness for the amended C5 at a concrete backend and query. -/
theorem C5_witness :
    (zoneWalk b2 "a.b.c.").firstNSAtLen = (("a.b.c" : String).length : Int) ∧
    (zoneWalk b2 "a.b.c.").delegationPoint = absname "a.b.c" ∧
    (zoneWalk b2 "a.b.c.").nss = (blookup b2 "b.c").1 := by
  have h := C5_delegation_point_and_nss b2 "a.b.c."
  exact ⟨(h.1 "a.b.c" (by decide)).1, (h.1 "a.b.c" (by decide)).2.1,
         h.2.2.1 "b.c" (by decide)⟩

/-! ## Claim C2 -/

theorem insertType_self_mem (l : List Nat) (t : Nat) : t ∈ insertType l t := by
  unfold insertType
  split
  · assumption
  · simp

theorem insertType_mem (l : List Nat) (t a : Nat) :
    a ∈ insertType l t ↔ a ∈ l ∨ a = t := by
  unfold insertType
  split
  · constructor
    · intro h; exact Or.inl h
    · intro h
      rcases h with h | h
      · exact h
      · rw [h]; assumption
  · simp

theorem queueAdditional_mem (tx : TxState) (name a : String) :
    a ∈ (queueAdditional tx name).additionalQueue ↔
      a ∈ tx.additionalQueue ∨ a = name := by
  unfold queueAdditional
  split
  · simp only []
    constructor
    · intro h; exact Or.inl h
    · intro h
      rcases h with h | h
      · exact h
      · rw [h]; assumption
  · simp

theorem dsAnswerLoop_spec :
    ∀ (l : List RR) (tx : TxState) (added : Bool),
      dsAnswerLoop tx added l =
        ({ tx with answer := tx.answer ++ l.filter (fun rr => rr.hdr.rrtype == TypeDS) },
         added || l.any (fun rr => rr.hdr.rrtype == TypeDS)) := by
  intro l
  induction l with
  | nil => intro tx added; simp [dsAnswerLoop]
  | cons rr rest ih =>
    intro tx added
    by_cases hds : rr.hdr.rrtype = TypeDS
    · have hb : (rr.hdr.rrtype == TypeDS) = true := by simp [hds]
      simp only [dsAnswerLoop, if_pos hds]
      rw [ih]
      simp [List.filter_cons, List.any_cons, hb]
    · have hb : (rr.hdr.rrtype == TypeDS) = false := by simp [hds]
      simp only [dsAnswerLoop, if_neg hds]
      rw [ih]
      simp [List.filter_cons, List.any_cons, hb]

theorem delegationLoop_spec :
    ∀ (l : List RR) (tx : TxState),
      (delegationLoop tx l).authority =
        tx.authority ++ l.filter (fun rr => rr.hdr.rrtype == TypeNS || rr.hdr.rrtype == TypeDS) ∧
      (delegationLoop tx l).suppressNSEC =
        (tx.suppressNSEC || l.any (fun rr => rr.hdr.rrtype == TypeDS)) ∧
      (∀ a, a ∈ (delegationLoop tx l).additionalQueue ↔
        a ∈ tx.additionalQueue ∨ ∃ rr ∈ l, rr.hdr.rrtype = TypeNS ∧ nsTarget rr = a) ∧
      (delegationLoop tx l).answer = tx.answer ∧
      (delegationLoop tx l).authoritative = tx.authoritative ∧
      (delegationLoop tx l).consolationSOA = tx.consolationSOA ∧
      (delegationLoop tx l).typesAtQname = tx.typesAtQname := by
  intro l
  induction l with
  | nil => intro tx; simp [delegationLoop]
  | cons rr rest ih =>
    intro tx
    simp only [delegationLoop]
    by_cases hns : rr.hdr.rrtype = TypeNS
    · have hnsds : (rr.hdr.rrtype == TypeDS) = false := by rw [hns]; decide
      have hfcons : List.filter
            (fun rr => rr.hdr.rrtype == TypeNS || rr.hdr.rrtype == TypeDS) (rr :: rest) =
          rr :: List.filter
            (fun rr => rr.hdr.rrtype == TypeNS || rr.hdr.rrtype == TypeDS) rest := by
        simp [List.filter_cons, hns]
      rw [if_pos (Or.inl hns), if_pos hns, if_neg (by rw [hns]; decide)]
      rcases ih (queueAdditional { tx with authority := tx.authority ++ [rr] } (nsTarget rr))
        with ⟨h1, h2, h3, h4, h5, h6, h7⟩
      refine ⟨?_, ?_, ?_, ?_, ?_, ?_, ?_⟩
      · rw [h1, hfcons]
        show (tx.authority ++ [rr]) ++ _ = _
        simp
      · rw [h2]
        show (tx.suppressNSEC || _) = _
        simp [List.any_cons, hnsds]
      · intro a
        rw [h3 a, queueAdditional_mem]
        show (a ∈ tx.additionalQueue ∨ a = nsTarget rr) ∨ _ ↔ _
        constructor
        · intro h
          rcases h with (h | h) | h
          · exact Or.inl h
          · exact Or.inr ⟨rr, by simp, hns, h.symm⟩
          · rcases h with ⟨rr2, hmem, hty, hta⟩
            exact Or.inr ⟨rr2, by simp [hmem], hty, hta⟩
        · intro h
          rcases h with h | ⟨rr2, hmem, hty, hta⟩
          · exact Or.inl (Or.inl h)
          · rcases List.mem_cons.1 hmem with h | h
            · subst h; exact Or.inl (Or.inr hta.symm)
            · exact Or.inr ⟨rr2, h, hty, hta⟩
      · rw [h4]; rfl
      · rw [h5]; rfl
      · rw [h6]; rfl
      · rw [h7]; rfl
    · by_cases hds : rr.hdr.rrtype = TypeDS
      · have hb : (rr.hdr.rrtype == TypeDS) = true := by simp [hds]
        have hfcons : List.filter
              (fun rr => rr.hdr.rrtype == TypeNS || rr.hdr.rrtype == TypeDS) (rr :: rest) =
            rr :: List.filter
              (fun rr => rr.hdr.rrtype == TypeNS || rr.hdr.rrtype == TypeDS) rest := by
          simp [List.filter_cons, hds]
        rw [if_pos (Or.inr hds), if_neg hns, if_pos hds]
        rcases ih { tx with authority := tx.authority ++ [rr], suppressNSEC := true }
          with ⟨h1, h2, h3, h4, h5, h6, h7⟩
        refine ⟨?_, ?_, ?_, ?_, ?_, ?_, ?_⟩
        · rw [h1, hfcons]
          show (tx.authority ++ [rr]) ++ _ = _
          simp
        · rw [h2]
          show (true || _) = _
          simp [List.any_cons, hb]
        · intro a
          rw [h3 a]
          show a ∈ tx.additionalQueue ∨ _ ↔ _
          constructor
          · intro h
            rcases h with h | ⟨rr2, hmem, hty, hta⟩
            · exact Or.inl h
            · exact Or.inr ⟨rr2, by simp [hmem], hty, hta⟩
          · intro h
            rcases h with h | ⟨rr2, hmem, hty, hta⟩
            · exact Or.inl h
            · rcases List.mem_cons.1 hmem with h | h
              · subst h; exact absurd hty hns
              · exact Or.inr ⟨rr2, h, hty, hta⟩
        · rw [h4]
        · rw [h5]
        · rw [h6]
        · rw [h7]
      · have hb : (rr.hdr.rrtype == TypeDS) = false := by simp [hds]
        have hfcons : List.filter
              (fun rr => rr.hdr.rrtype == TypeNS || rr.hdr.rrtype == TypeDS) (rr :: rest) =
            List.filter
              (fun rr => rr.hdr.rrtype == TypeNS || rr.hdr.rrtype == TypeDS) rest := by
          simp [List.filter_cons, hns, hds]
        have hnor : ¬ (rr.hdr.rrtype = TypeNS ∨ rr.hdr.rrtype = TypeDS) := by
          intro h
          rcases h with h | h
          · exact hns h
          · exact hds h
        rw [if_neg hnor, if_neg hns, if_neg hds]
        rcases ih tx with ⟨h1, h2, h3, h4, h5, h6, h7⟩
        refine ⟨?_, ?_, ?_, ?_, ?_, ?_, ?_⟩
        · rw [h1, hfcons]
        · rw [h2]
          simp [List.any_cons, hb]
        · intro a
          rw [h3 a]
          constructor
          · intro h
            rcases h with h | ⟨rr2, hmem, hty, hta⟩
            · exact Or.inl h
            · exact Or.inr ⟨rr2, by simp [hmem], hty, hta⟩
          · intro h
            rcases h with h | ⟨rr2, hmem, hty, hta⟩
            · exact Or.inl h
            · rcases List.mem_cons.1 hmem with h | h
              · subst h; exact absurd hty hns
              · exact Or.inr ⟨rr2, h, hty, hta⟩
        · rw [h4]
        · rw [h5]
        · rw [h6]
        · rw [h7]

/-- C2: the delegation branch.  When the query is exactly
`(delegationPoint, DS)` — qtype DS (not ANY) and the query at the
delegation point — the DS records of `nss` are appended to Answer,
`suppressNSEC` is set iff at least one was added and `consolationSOA`
otherwise, the Authority section and the authoritative flag are left
alone; for any other query the authoritative flag is cleared, exactly
the NS and DS records of `nss` are appended to Authority, every NS
target is enqueued for glue lookup, and `suppressNSEC` is set when any
DS was appended; in both sub-cases NS is added to `typesAtQname` and no
error is returned. -/
theorem C2_delegation_branch (tx : TxState) (nss : List RR) :
    ((tx.qtype = TypeDS ∧ tx.queryIsAtDelegationPoint = true) →
      (nss.any (fun rr => rr.hdr.rrtype == TypeDS) = true →
        (addAnswersDelegation tx nss).1.answer =
          tx.answer ++ nss.filter (fun rr => rr.hdr.rrtype == TypeDS) ∧
        (addAnswersDelegation tx nss).1.suppressNSEC = true ∧
        (addAnswersDelegation tx nss).1.consolationSOA = tx.consolationSOA) ∧
      (nss.any (fun rr => rr.hdr.rrtype == TypeDS) = false →
        (addAnswersDelegation tx nss).1.answer = tx.answer ∧
        (addAnswersDelegation tx nss).1.suppressNSEC = tx.suppressNSEC ∧
        (addAnswersDelegation tx nss).1.consolationSOA = true) ∧
      (addAnswersDelegation tx nss).1.authority = tx.authority ∧
      (addAnswersDelegation tx nss).1.authoritative = tx.authoritative) ∧
    (¬ (tx.qtype = TypeDS ∧ tx.queryIsAtDelegationPoint = true) →
      (addAnswersDelegation tx nss).1.authoritative = false ∧
      (addAnswersDelegation tx nss).1.authority =
        tx.authority ++
          nss.filter (fun rr => rr.hdr.rrtype == TypeNS || rr.hdr.rrtype == TypeDS) ∧
      (∀ rr ∈ nss, rr.hdr.rrtype = TypeNS →
        nsTarget rr ∈ (addAnswersDelegation tx nss).1.additionalQueue) ∧
      (∀ a, a ∈ (addAnswersDelegation tx nss).1.additionalQueue ↔
        a ∈ tx.additionalQueue ∨ ∃ rr ∈ nss, rr.hdr.rrtype = TypeNS ∧ nsTarget rr = a) ∧
      (addAnswersDelegation tx nss).1.suppressNSEC =
        (tx.suppressNSEC || nss.any (fun rr => rr.hdr.rrtype == TypeDS)) ∧
      (addAnswersDelegation tx nss).1.answer = tx.answer) ∧
    TypeNS ∈ (addAnswersDelegation tx nss).1.typesAtQname ∧
    (addAnswersDelegation tx nss).2 = none := by
  by_cases hc : tx.qtype = TypeDS ∧ tx.queryIsAtDelegationPoint = true
  · have hred : addAnswersDelegation tx nss =
        (match dsAnswerLoop tx false nss with
         | (tx2, true) =>
             ({ { tx2 with suppressNSEC := true } with
                 typesAtQname :=
                   insertType { tx2 with suppressNSEC := true }.typesAtQname TypeNS }, none)
         | (tx2, false) =>
             ({ { tx2 with consolationSOA := true } with
                 typesAtQname :=
                   insertType { tx2 with consolationSOA := true }.typesAtQname TypeNS }, none)) := by
      simp only [addAnswersDelegation, if_pos hc]
      rcases dsAnswerLoop tx false nss with ⟨tx2, b⟩
      rcases b with _ | _ <;> rfl
    rcases hany : nss.any (fun rr => rr.hdr.rrtype == TypeDS) with _ | _
    · have hds := dsAnswerLoop_spec nss tx false
      rw [hany] at hds
      have hfe : nss.filter (fun rr => rr.hdr.rrtype == TypeDS) = [] := by
        rw [List.filter_eq_nil_iff]
        intro a ha
        have := (List.any_eq_false).1 hany a ha
        simpa using this
      refine ⟨?_, ?_, ?_, ?_⟩
      · intro _
        refine ⟨?_, ?_, ?_, ?_⟩
        · intro hab
          exact absurd hab (by decide)
        · intro _
          refine ⟨?_, ?_, ?_⟩
          · rw [hred, hds]
            show tx.answer ++ nss.filter (fun rr => rr.hdr.rrtype == TypeDS) = tx.answer
            rw [hfe]
            simp
          · rw [hred, hds]; rfl
          · rw [hred, hds]; rfl
        · rw [hred, hds]; rfl
        · rw [hred, hds]; rfl
      · intro hnc; exact absurd hc hnc
      · rw [hred, hds]
        show TypeNS ∈ insertType _ TypeNS
        exact insertType_self_mem _ _
      · rw [hred, hds]; rfl
    · have hds := dsAnswerLoop_spec nss tx false
      rw [hany] at hds
      refine ⟨?_, ?_, ?_, ?_⟩
      · intro _
        refine ⟨?_, ?_, ?_, ?_⟩
        · intro _
          refine ⟨?_, ?_, ?_⟩
          · rw [hred, hds]; rfl
          · rw [hred, hds]; rfl
          · rw [hred, hds]; rfl
        · intro hab
          exact absurd hab (by decide)
        · rw [hred, hds]; rfl
        · rw [hred, hds]; rfl
      · intro hnc; exact absurd hc hnc
      · rw [hred, hds]
        show TypeNS ∈ insertType _ TypeNS
        exact insertType_self_mem _ _
      · rw [hred, hds]; rfl
  · have hred : addAnswersDelegation tx nss =
        ({ delegationLoop { tx with authoritative := false } nss with
            typesAtQname :=
              insertType (delegationLoop { tx with authoritative := false } nss).typesAtQname
                TypeNS }, none) := by
      simp only [addAnswersDelegation, if_neg hc]
    rw [hred]
    rcases delegationLoop_spec nss { tx with authoritative := false }
      with ⟨h1, h2, h3, h4, h5, h6, h7⟩
    refine ⟨?_, ?_, ?_, ?_⟩
    · intro hcc; exact absurd hcc hc
    · intro _
      refine ⟨?_, ?_, ?_, ?_, ?_, ?_⟩
      · show (delegationLoop { tx with authoritative := false } nss).authoritative = false
        rw [h5]
      · show (delegationLoop { tx with authoritative := false } nss).authority = _
        rw [h1]
      · intro rr hmem hns
        show nsTarget rr ∈ (delegationLoop { tx with authoritative := false } nss).additionalQueue
        rw [h3 (nsTarget rr)]
        exact Or.inr ⟨rr, hmem, hns, rfl⟩
      · intro a
        show a ∈ (delegationLoop { tx with authoritative := false } nss).additionalQueue ↔ _
        rw [h3 a]
      · show (delegationLoop { tx with authoritative := false } nss).suppressNSEC = _
        rw [h2]
      · show (delegationLoop { tx with authoritative := false } nss).answer = _
        rw [h4]
    · exact insertType_self_mem _ _
    · rfl

/-- Witness for C2 at concrete inputs: a DS query at the delegation
point with a DS record present, and an A query crossing the
delegation. -/
theorem C2_witness :
    (addAnswersDelegation
        { initTx srv1 env0 (oneQuestion "sub.example." TypeDS) with
            qname := "sub.example.", qtype := TypeDS, queryIsAtDelegationPoint := true }
        [mkNS "sub.example." "ns1.sub.example.", mkDS "sub.example."]).1.suppressNSEC = true ∧
    (addAnswersDelegation
        { initTx srv1 env0 (oneQuestion "foo.sub.example." TypeA) with
            qname := "foo.sub.example.", qtype := TypeA }
        [mkNS "sub.example." "ns1.sub.example.", mkDS "sub.example."]).1.authoritative =
      false := by
  constructor
  · exact ((C2_delegation_branch
      { initTx srv1 env0 (oneQuestion "sub.example." TypeDS) with
          qname := "sub.example.", qtype := TypeDS, queryIsAtDelegationPoint := true }
      [mkNS "sub.example." "ns1.sub.example.", mkDS "sub.example."]).1
      (by decide)).1 (by decide) |>.2.1
  · exact ((C2_delegation_branch
      { initTx srv1 env0 (oneQuestion "foo.sub.example." TypeA) with
          qname := "foo.sub.example.", qtype := TypeA }
      [mkNS "sub.example." "ns1.sub.example.", mkDS "sub.example."]).2.1
      (by decide)).1

/-! ## Claim C8 -/

/-- A transaction whose question is an ANY query. -/
def txANY : TxState :=
  { initTx srv1 env0 (oneQuestion "alias.example." TypeANY) with
      qname := "alias.example.", qtype := TypeANY, qclass := ClassINET }

/-- A transaction whose question is an A query. -/
def txA : TxState :=
  { initTx srv1 env0 (oneQuestion "alias.example." TypeA) with
      qname := "alias.example.", qtype := TypeA, qclass := ClassINET }

/-- Counterexample to C8 as stated: `istype` also matches qtype ANY, so
an ANY query (not only an exact CNAME query) bypasses the CNAME
redirection: with a CNAME and an A record present and qtype ANY, both
records are appended and the types are recorded — not the CNAME
alone. -/
theorem C8_counterexample :
    rrsetHasType [mkCNAME "alias.example." "host.example.", mkA "alias.example." "10.9.9.9"]
        TypeCNAME = some (mkCNAME "alias.example." "host.example.") ∧
    ¬ txANY.qtype = TypeCNAME ∧
    (addAnswersAuthoritative txANY
        [mkCNAME "alias.example." "host.example.", mkA "alias.example." "10.9.9.9"]
        none).1.answer =
      [mkCNAME "alias.example." "host.example.", mkA "alias.example." "10.9.9.9"] ∧
    ¬ (addAnswersAuthoritative txANY
        [mkCNAME "alias.example." "host.example.", mkA "alias.example." "10.9.9.9"]
        none).1.answer = [mkCNAME "alias.example." "host.example."] ∧
    ¬ (addAnswersAuthoritative txANY
        [mkCNAME "alias.example." "host.example.", mkA "alias.example." "10.9.9.9"]
        none).1.typesAtQname = txANY.typesAtQname := by
  decide

/-- C8 (amended): in the authoritative branch with a successful original
lookup, if the record set contains a CNAME (the first such record) and
the query type is neither CNAME nor ANY — a CNAME query or an ANY query
both bypass the redirection — then that CNAME record alone is appended
to Answer and the branch returns with every other transaction field
unchanged and no error. -/
theorem C8_cname_redirection (tx : TxState) (rrs : List RR) (cn : RR) :
    rrsetHasType rrs TypeCNAME = some cn →
    ¬ tx.qtype = TypeCNAME →
    ¬ tx.qtype = TypeANY →
    addAnswersAuthoritative tx rrs none =
      ({ tx with answer := tx.answer ++ [cn] }, none) := by
  intro hfind h1 h2
  have hit : tx.istype TypeCNAME = false := by
    unfold TxState.istype
    simp [h1, h2]
  simp only [addAnswersAuthoritative, hfind]
  rw [if_neg (by rw [hit]; decide)]
  rfl

/-- Witness for the amended C8 at a concrete transaction. -/
theorem C8_witness :
    addAnswersAuthoritative txA
        [mkCNAME "alias.example." "host.example.", mkA "alias.example." "10.9.9.9"] none =
      ({ txA with answer := txA.answer ++ [mkCNAME "alias.example." "host.example."] },
       none) := by
  exact C8_cname_redirection txA
    [mkCNAME "alias.example." "host.example.", mkA "alias.example." "10.9.9.9"]
    (mkCNAME "alias.example." "host.example.") (by decide) (by decide) (by decide)

/-! ## Claim C7 -/

/-- C7: right after the chosen branch completes, when the apex SOA was
discovered and SOA is among the types at the queried name, then: if the
query matches DNSKEY, the KSK and ZSK — owner names rewritten to the
apex, also in the shared server state — are appended to Answer and the
consolation SOA is cancelled; otherwise nothing changes except that, in
either case, DNSKEY is recorded in `typesAtQname`. -/
theorem C7_dnskey_at_apex (tx : TxState) (s : RR) :
    tx.soa = some s →
    TypeSOA ∈ tx.typesAtQname →
    (tx.istype TypeDNSKEY = true →
      (dnskeyStep tx).answer = tx.answer ++
        [{ tx.server.ksk with hdr := { tx.server.ksk.hdr with name := s.hdr.name } },
         { tx.server.zsk with hdr := { tx.server.zsk.hdr with name := s.hdr.name } }] ∧
      (dnskeyStep tx).consolationSOA = false ∧
      (dnskeyStep tx).server.ksk.hdr.name = s.hdr.name ∧
      (dnskeyStep tx).server.zsk.hdr.name = s.hdr.name) ∧
    (tx.istype TypeDNSKEY = false →
      (dnskeyStep tx).answer = tx.answer ∧
      (dnskeyStep tx).consolationSOA = tx.consolationSOA ∧
      (dnskeyStep tx).server = tx.server) ∧
    TypeDNSKEY ∈ (dnskeyStep tx).typesAtQname := by
  intro hsoa hmem
  rcases hit : tx.istype TypeDNSKEY with _ | _
  · have hnd : ¬ tx.istype TypeDNSKEY = true := by
      rw [hit]; decide
    have hred : dnskeyStep tx =
        { tx with typesAtQname := insertType tx.typesAtQname TypeDNSKEY } := by
      simp only [dnskeyStep, hsoa]
      rw [if_pos hmem, if_neg hnd, hsoa]
    refine ⟨?_, ?_, ?_⟩
    · intro h; exact absurd h (by decide)
    · intro _
      rw [hred]
      exact ⟨rfl, rfl, rfl⟩
    · rw [hred]
      exact insertType_self_mem _ _
  · have hred : dnskeyStep tx =
        { tx with
            server := { tx.server with
              ksk := { tx.server.ksk with hdr := { tx.server.ksk.hdr with name := s.hdr.name } },
              zsk := { tx.server.zsk with hdr := { tx.server.zsk.hdr with name := s.hdr.name } } },
            answer := tx.answer ++
              [{ tx.server.ksk with hdr := { tx.server.ksk.hdr with name := s.hdr.name } },
               { tx.server.zsk with hdr := { tx.server.zsk.hdr with name := s.hdr.name } }],
            consolationSOA := false,
            typesAtQname := insertType tx.typesAtQname TypeDNSKEY } := by
      simp only [dnskeyStep, hsoa]
      rw [if_pos hmem, if_pos hit]
    refine ⟨?_, ?_, ?_⟩
    · intro _
      rw [hred]
      exact ⟨rfl, rfl, rfl, rfl⟩
    · intro h; exact absurd h (by decide)
    · rw [hred]
      exact insertType_self_mem _ _

/-- Witness for C7 at a concrete transaction: a DNSKEY query at the
apex. -/
theorem C7_witness :
    (dnskeyStep
        { initTx srv1 env0 (oneQuestion "example." TypeDNSKEY) with
            qname := "example.", qtype := TypeDNSKEY,
            soa := some (mkSOA "example."), typesAtQname := [TypeSOA] }).consolationSOA =
      false ∧
    TypeDNSKEY ∈ (dnskeyStep
        { initTx srv1 env0 (oneQuestion "example." TypeDNSKEY) with
            qname := "example.", qtype := TypeDNSKEY,
            soa := some (mkSOA "example."), typesAtQname := [TypeSOA] }).typesAtQname := by
  have h := C7_dnskey_at_apex
    { initTx srv1 env0 (oneQuestion "example." TypeDNSKEY) with
        qname := "example.", qtype := TypeDNSKEY,
        soa := some (mkSOA "example."), typesAtQname := [TypeSOA] }
    (mkSOA "example.") (by decide) (by decide)
  exact ⟨(h.1 (by decide)).2.1, h.2.2⟩

/-! ## Claim C10 -/

/-- C10: a question for the root name "." (or the empty name) trims to
the empty string, so the zone walk visits no name (performs no backend
lookup) and `addAnswersMain` returns `NotInZone` with the transaction —
in particular every response section — completely unchanged. -/
theorem C10_root_query (tx : TxState) :
    tx.qname = "." ∨ tx.qname = "" →
    (walkQ tx.server.b tx.delegationPoint tx.queryIsAtDelegationPoint tx.qname).visited = [] ∧
    addAnswersMain tx = (tx, some NCErr.notInZone) := by
  intro hq
  have hdata : (trimRightDots tx.qname).data = [] := by
    rcases hq with hq | hq <;> rw [hq] <;> rfl
  have hsuf : suffixes (trimRightDots tx.qname).data = [] := by
    rw [hdata]
    rfl
  constructor
  · simp only [walkQ]
    rw [hsuf]
    rfl
  · simp only [addAnswersMain, walkQ]
    rw [hsuf]
    rfl

/-- Witness for C10 at a concrete transaction with qname ".". -/
theorem C10_witness :
    addAnswersMain
        { initTx srv1 env0 (oneQuestion "." TypeA) with qname := ".", qtype := TypeA } =
      ({ initTx srv1 env0 (oneQuestion "." TypeA) with qname := ".", qtype := TypeA },
       some NCErr.notInZone) := by
  exact (C10_root_query
    { initTx srv1 env0 (oneQuestion "." TypeA) with qname := ".", qtype := TypeA }
    (Or.inl rfl)).2

/-! ## Claim C4 -/

/-- A transaction positioned as `addNSEC` sees it: apex SOA found, an
empty answer, DNSSEC in use. -/
def txC4 : TxState :=
  { initTx srv1 env0 (oneQuestion "host.example." 15) with
      qname := "host.example.", qtype := 15,
      soa := some (mkSOA "example."), typesAtQname := [TypeA], useDNSSEC := true }

/-- C4: an NSEC3 record is emitted iff DNSSEC is in use, `suppressNSEC`
is false and the Answer section is empty; the emitted record has owner
`H(qname) . apexName` with `H` applied as SHA-1, 1 iteration, 1-byte
salt "8F", flags 0, `NextDomain` the stepped hash, type bit-map the
sorted set of the types at the queried name, TTL 600 and class INET;
when it is not emitted the transaction is unchanged, and `addNSEC`
never touches Answer or Extra and never fails. -/
theorem C4_nsec3_emission (tx : TxState) (s : RR) :
    tx.soa = some s →
    ((tx.useDNSSEC = true ∧ tx.suppressNSEC = false ∧ tx.answer = []) →
      addNSEC tx =
        ({ tx with authority := tx.authority ++
            [{ hdr := { name := absname (tx.env.hashName tx.qname SHA1 1 "8F" ++ "." ++ s.hdr.name),
                        rrtype := TypeNSEC3, rclass := ClassINET, ttl := 600 },
               rdata := RData.nsec3Data SHA1 0 1 1 "8F"
                 ((stepName (tx.env.hashName tx.qname SHA1 1 "8F")).length % 256)
                 (stepName (tx.env.hashName tx.qname SHA1 1 "8F"))
                 (tx.typesAtQname.mergeSort (fun a b => a ≤ b)) }] }, none)) ∧
    (¬ (tx.useDNSSEC = true ∧ tx.suppressNSEC = false ∧ tx.answer = []) →
      (addNSEC tx).1 = tx) ∧
    ((∃ rr ∈ (addNSEC tx).1.authority, rr.hdr.rrtype = TypeNSEC3) ↔
      ((tx.useDNSSEC = true ∧ tx.suppressNSEC = false ∧ tx.answer = []) ∨
        ∃ rr ∈ tx.authority, rr.hdr.rrtype = TypeNSEC3)) ∧
    (addNSEC tx).1.answer = tx.answer ∧
    (addNSEC tx).1.extra = tx.extra ∧
    List.Sorted (fun a b => a ≤ b) (tx.typesAtQname.mergeSort (fun a b => a ≤ b)) ∧
    (∀ t, t ∈ tx.typesAtQname.mergeSort (fun a b => a ≤ b) ↔ t ∈ tx.typesAtQname) ∧
    (addNSEC tx).2 = none := by
  intro hsoa
  have hemit : (tx.useDNSSEC = true ∧ tx.suppressNSEC = false ∧ tx.answer = []) →
      addNSEC tx =
        ({ tx with authority := tx.authority ++
            [{ hdr := { name := absname (tx.env.hashName tx.qname SHA1 1 "8F" ++ "." ++ s.hdr.name),
                        rrtype := TypeNSEC3, rclass := ClassINET, ttl := 600 },
               rdata := RData.nsec3Data SHA1 0 1 1 "8F"
                 ((stepName (tx.env.hashName tx.qname SHA1 1 "8F")).length % 256)
                 (stepName (tx.env.hashName tx.qname SHA1 1 "8F"))
                 (tx.typesAtQname.mergeSort (fun a b => a ≤ b)) }] }, none) := by
    intro hC
    have hno : ¬ (¬ tx.useDNSSEC = true ∨ tx.suppressNSEC = true) := by
      intro h
      rcases h with h | h
      · exact h hC.1
      · rw [hC.2.1] at h; cases h
    simp only [addNSEC]
    rw [if_neg hno, if_pos hC.2.2]
    simp only [addNSEC3RR, addNSEC3RRActual, hsoa]
  have hskip : ¬ (tx.useDNSSEC = true ∧ tx.suppressNSEC = false ∧ tx.answer = []) →
      (addNSEC tx).1 = tx := by
    intro hC
    by_cases h1 : ¬ tx.useDNSSEC = true ∨ tx.suppressNSEC = true
    · simp only [addNSEC]
      rw [if_pos h1]
    · have hu : tx.useDNSSEC = true := by
        rcases hb : tx.useDNSSEC with _ | _
        · exact absurd (Or.inl (by rw [hb]; decide)) h1
        · rfl
      have hsup : tx.suppressNSEC = false := by
        rcases hb : tx.suppressNSEC with _ | _
        · rfl
        · exact absurd (Or.inr hb) h1
      have hans : ¬ tx.answer = [] := by
        intro ha
        exact hC ⟨hu, hsup, ha⟩
      simp only [addNSEC]
      rw [if_neg h1, if_neg hans]
  refine ⟨hemit, hskip, ?_, ?_, ?_, ?_, ?_, ?_⟩
  · by_cases hC : tx.useDNSSEC = true ∧ tx.suppressNSEC = false ∧ tx.answer = []
    · rw [hemit hC]
      constructor
      · intro _; exact Or.inl hC
      · intro _
        exact ⟨_, List.mem_append_right tx.authority (List.mem_singleton_self _), rfl⟩
    · rw [hskip hC]
      constructor
      · intro h; exact Or.inr h
      · intro h
        rcases h with h | h
        · exact absurd h hC
        · exact h
  · by_cases hC : tx.useDNSSEC = true ∧ tx.suppressNSEC = false ∧ tx.answer = []
    · rw [hemit hC]
    · rw [hskip hC]
  · by_cases hC : tx.useDNSSEC = true ∧ tx.suppressNSEC = false ∧ tx.answer = []
    · rw [hemit hC]
    · rw [hskip hC]
  · exact List.sorted_mergeSort' tx.typesAtQname
  · intro t
    exact List.mem_mergeSort
  · by_cases hC : tx.useDNSSEC = true ∧ tx.suppressNSEC = false ∧ tx.answer = []
    · rw [hemit hC]
    · simp only [addNSEC]
      by_cases h1 : ¬ tx.useDNSSEC = true ∨ tx.suppressNSEC = true
      · rw [if_pos h1]
      · rw [if_neg h1]
        have hu : tx.useDNSSEC = true := by
          rcases hb : tx.useDNSSEC with _ | _
          · exact absurd (Or.inl (by rw [hb]; decide)) h1
          · rfl
        have hsup : tx.suppressNSEC = false := by
          rcases hb : tx.suppressNSEC with _ | _
          · rfl
          · exact absurd (Or.inr hb) h1
        have hans : ¬ tx.answer = [] := fun ha => hC ⟨hu, hsup, ha⟩
        rw [if_neg hans]

/-- Witness for C4: the NSEC3 denial appears for an empty-answer
DNSSEC transaction. -/
theorem C4_witness :
    ∃ rr ∈ (addNSEC txC4).1.authority, rr.hdr.rrtype = TypeNSEC3 := by
  have h := C4_nsec3_emission txC4 (mkSOA "example.") (by decide)
  exact h.2.2.1.mpr (Or.inl (by decide))

/-! ## Claim C3 -/

/-- C3 at the failing input: the dispatcher's error mapping sends
`NotInZone` to SERVFAIL (2), not to REFUSED (5) as the claim (and the
resolver's own comment about `ErrNotInZone`) states; the `NoResults`
and `NoSuchDomain` rows and the preset-rcode rule behave as claimed.
The final conjunct evaluates the full dispatcher on a query for which
no zone has a SOA. -/
theorem C3_notinzone_servfail :
    errorRcode NCErr.notInZone 0 = RcodeServerFailure ∧
    ¬ errorRcode NCErr.notInZone 0 = RcodeRefused ∧
    errorRcode NCErr.noResults 0 = RcodeSuccess ∧
    errorRcode NCErr.noSuchDomain 0 = RcodeNameError ∧
    errorRcode (NCErr.other "boom") 0 = RcodeServerFailure ∧
    errorRcode (NCErr.other "boom") 5 = 5 ∧
    (handle { srv1 with b := bNone } env0 (oneQuestion "host.example." TypeA)).rcode =
      RcodeServerFailure := by
  decide

/-! ## Claim C6 -/

/-- C6 at the failing input: with the backend answering `NoSuchDomain`
at `nothere.example` and a SOA at `example`, the response rcode is
NXDOMAIN, but the Authority section is empty — the error returns from
`addAnswersMain` before the consolation-SOA and NSEC3 steps run, so
neither the apex SOA nor an NSEC3 record is present, contrary to the
claim. -/
theorem C6_nxdomain_empty_authority :
    (handle srv1 env0 (oneQuestion "nothere.example." TypeA)).rcode = RcodeNameError ∧
    (handle srv1 env0 (oneQuestion "nothere.example." TypeA)).authority = [] ∧
    (handle srv1 env0 (oneQuestion "nothere.example." TypeA)).answer = [] ∧
    ¬ (zoneWalk b1 "nothere.example.").soa = none := by
  decide

/-! ## Claim C9 -/

/-- `b` agrees with `a` on every field except possibly the owner name
in the header. -/
def sameKeyButName (a b : RR) : Prop :=
  b = { a with hdr := { a.hdr with name := b.hdr.name } }

/-- The server state `s2` is reachable from `s` by rewriting only the
owner names of the two DNSKEY records. -/
def ServerCompat (s s2 : Server) : Prop :=
  s2.cfg = s.cfg ∧ s2.b = s.b ∧ s2.kskPrivate = s.kskPrivate ∧
  s2.zskPrivate = s.zskPrivate ∧ sameKeyButName s.ksk s2.ksk ∧
  sameKeyButName s.zsk s2.zsk

theorem ServerCompat_refl (s : Server) : ServerCompat s s :=
  ⟨rfl, rfl, rfl, rfl, rfl, rfl⟩

theorem ServerCompat_of_eq (s s2 : Server) (h : s2 = s) : ServerCompat s s2 := by
  rw [h]; exact ServerCompat_refl s

theorem ServerCompat_trans (s t u : Server) :
    ServerCompat s t → ServerCompat t u → ServerCompat s u := by
  intro h1 h2
  refine ⟨h2.1.trans h1.1, h2.2.1.trans h1.2.1, h2.2.2.1.trans h1.2.2.1,
    h2.2.2.2.1.trans h1.2.2.2.1, ?_, ?_⟩
  · have hb := h1.2.2.2.2.1
    have hc := h2.2.2.2.2.1
    unfold sameKeyButName at hb hc ⊢
    rw [hc, hb]
  · have hb := h1.2.2.2.2.2
    have hc := h2.2.2.2.2.2
    unfold sameKeyButName at hb hc ⊢
    rw [hc, hb]

theorem authAnswerLoop_frame :
    ∀ (l : List RR) (tx : TxState),
      (authAnswerLoop tx l).server = tx.server ∧ (authAnswerLoop tx l).env = tx.env := by
  intro l
  induction l with
  | nil => intro tx; exact ⟨rfl, rfl⟩
  | cons rr rest ih =>
    intro tx
    simp only [authAnswerLoop]
    split_ifs <;> exact ⟨(ih _).1, (ih _).2⟩

theorem dsAnswerLoop_frame :
    ∀ (l : List RR) (tx : TxState) (added : Bool),
      (dsAnswerLoop tx added l).1.server = tx.server ∧
      (dsAnswerLoop tx added l).1.env = tx.env := by
  intro l
  induction l with
  | nil => intro tx added; exact ⟨rfl, rfl⟩
  | cons rr rest ih =>
    intro tx added
    simp only [dsAnswerLoop]
    split_ifs <;> exact ⟨(ih _ _).1, (ih _ _).2⟩

theorem delegationLoop_frame :
    ∀ (l : List RR) (tx : TxState),
      (delegationLoop tx l).server = tx.server ∧ (delegationLoop tx l).env = tx.env := by
  intro l
  induction l with
  | nil => intro tx; exact ⟨rfl, rfl⟩
  | cons rr rest ih =>
    intro tx
    simp only [delegationLoop, queueAdditional]
    split_ifs <;> exact ⟨(ih _).1, (ih _).2⟩

theorem additionalLoop_frame :
    ∀ (l : List RR) (tx : TxState),
      (additionalLoop tx l).server = tx.server ∧ (additionalLoop tx l).env = tx.env := by
  intro l
  induction l with
  | nil => intro tx; exact ⟨rfl, rfl⟩
  | cons rr rest ih =>
    intro tx
    simp only [additionalLoop]
    split_ifs <;> exact ⟨(ih _).1, (ih _).2⟩

theorem addAnswersAuthoritative_frame (tx : TxState) (rrs : List RR)
    (origerr : Option NCErr) :
    (addAnswersAuthoritative tx rrs origerr).1.server = tx.server ∧
    (addAnswersAuthoritative tx rrs origerr).1.env = tx.env := by
  rcases origerr with _ | e
  · simp only [addAnswersAuthoritative]
    rcases rrsetHasType rrs TypeCNAME with _ | cn
    · simp only [authAnswerRest]
      split_ifs <;> exact ⟨(authAnswerLoop_frame rrs tx).1, (authAnswerLoop_frame rrs tx).2⟩
    · simp only []
      split_ifs
      · simp only [authAnswerRest]
        split_ifs <;>
          exact ⟨(authAnswerLoop_frame rrs tx).1, (authAnswerLoop_frame rrs tx).2⟩
      · exact ⟨rfl, rfl⟩
  · exact ⟨rfl, rfl⟩

theorem addAnswersDelegation_frame (tx : TxState) (nss : List RR) :
    (addAnswersDelegation tx nss).1.server = tx.server ∧
    (addAnswersDelegation tx nss).1.env = tx.env := by
  simp only [addAnswersDelegation]
  split_ifs
  · rcases hds : dsAnswerLoop tx false nss with ⟨tx2, b⟩
    have h := dsAnswerLoop_frame nss tx false
    rw [hds] at h
    rcases b with _ | _ <;> exact ⟨h.1, h.2⟩
  · exact ⟨(delegationLoop_frame nss _).1, (delegationLoop_frame nss _).2⟩

theorem addAnswersMain_frame (tx : TxState) :
    (addAnswersMain tx).1.server = tx.server ∧ (addAnswersMain tx).1.env = tx.env := by
  simp only [addAnswersMain]
  rcases walkQ tx.server.b tx.delegationPoint tx.queryIsAtDelegationPoint tx.qname with
    ⟨soa, origq, origerr, firsterr, nss, fns, fsoa, dp, qidp, visited⟩
  rcases soa with _ | srec
  · exact ⟨rfl, rfl⟩
  · simp only []
    split_ifs
    · exact ⟨(addAnswersAuthoritative_frame _ _ _).1, (addAnswersAuthoritative_frame _ _ _).2⟩
    · exact ⟨(addAnswersDelegation_frame _ _).1, (addAnswersDelegation_frame _ _).2⟩

theorem dnskeyStep_frame (tx : TxState) :
    ServerCompat tx.server (dnskeyStep tx).server ∧ (dnskeyStep tx).env = tx.env := by
  unfold dnskeyStep
  rcases tx.soa with _ | srec
  · exact ⟨ServerCompat_refl _, rfl⟩
  · simp only []
    split_ifs
    · refine ⟨⟨rfl, rfl, rfl, rfl, rfl, rfl⟩, rfl⟩
    · exact ⟨ServerCompat_refl _, rfl⟩
    · exact ⟨ServerCompat_refl _, rfl⟩

theorem consolationStep_frame (tx : TxState) :
    (consolationStep tx).server = tx.server ∧ (consolationStep tx).env = tx.env := by
  unfold consolationStep
  rcases tx.soa with _ | srec
  · exact ⟨rfl, rfl⟩
  · simp only []
    split_ifs <;> exact ⟨rfl, rfl⟩

theorem addNSEC_frame (tx : TxState) :
    (addNSEC tx).1.server = tx.server ∧ (addNSEC tx).1.env = tx.env := by
  unfold addNSEC addNSEC3RR addNSEC3RRActual
  split_ifs <;> exact ⟨rfl, rfl⟩

theorem addAdditionalItem_frame (tx : TxState) (aname : String) :
    (addAdditionalItem tx aname).1.server = tx.server ∧
    (addAdditionalItem tx aname).1.env = tx.env := by
  simp only [addAdditionalItem]
  rcases hp : (blookup tx.server.b aname).2 with _ | e
  · exact ⟨(additionalLoop_frame _ _).1, (additionalLoop_frame _ _).2⟩
  · exact ⟨rfl, rfl⟩

theorem addAdditional_frame (tx : TxState) :
    (addAdditional tx).server = tx.server ∧ (addAdditional tx).env = tx.env := by
  unfold addAdditional
  have hgen : ∀ (names : List String) (t : TxState),
      (names.foldl (fun t2 aname => (addAdditionalItem t2 aname).1) t).server = t.server ∧
      (names.foldl (fun t2 aname => (addAdditionalItem t2 aname).1) t).env = t.env := by
    intro names
    induction names with
    | nil => intro t; exact ⟨rfl, rfl⟩
    | cons nm rest ih =>
      intro t
      simp only [List.foldl_cons]
      rcases ih ((addAdditionalItem t nm).1) with ⟨h1, h2⟩
      rw [h1, h2]
      exact ⟨(addAdditionalItem_frame t nm).1, (addAdditionalItem_frame t nm).2⟩
  exact hgen tx.additionalQueue tx

theorem signResponse_frame (tx : TxState) :
    (signResponse tx).1.server = tx.server ∧ (signResponse tx).1.env = tx.env := by
  unfold signResponse
  split_ifs <;> exact ⟨rfl, rfl⟩

theorem addAnswers_frame (tx : TxState) :
    ServerCompat tx.server (addAnswers tx).1.server ∧ (addAnswers tx).1.env = tx.env := by
  unfold addAnswers
  rcases hmain : addAnswersMain tx with ⟨tx1, e1⟩
  have hm := addAnswersMain_frame tx
  rw [hmain] at hm
  rcases e1 with _ | e
  · simp only []
    have hd := dnskeyStep_frame tx1
    have hcs := consolationStep_frame (dnskeyStep tx1)
    rcases hnsec : addNSEC (consolationStep (dnskeyStep tx1)) with ⟨tx2, e2⟩
    have hn := addNSEC_frame (consolationStep (dnskeyStep tx1))
    rw [hnsec] at hn
    rcases e2 with _ | e
    · simp only []
      have ha := addAdditional_frame tx2
      have hs := signResponse_frame (addAdditional tx2)
      constructor
      · apply ServerCompat_trans _ tx1.server
        · exact ServerCompat_of_eq _ _ hm.1
        · apply ServerCompat_trans _ (dnskeyStep tx1).server
          · exact hd.1
          · apply ServerCompat_of_eq
            rw [hs.1, ha.1, hn.1, hcs.1]
      · rw [hs.2, ha.2, hn.2, hcs.2, hd.2, hm.2]
    · simp only []
      constructor
      · apply ServerCompat_trans _ tx1.server
        · exact ServerCompat_of_eq _ _ hm.1
        · apply ServerCompat_trans _ (dnskeyStep tx1).server
          · exact hd.1
          · apply ServerCompat_of_eq
            rw [hn.1, hcs.1]
      · rw [hn.2, hcs.2, hd.2, hm.2]
  · simp only []
    exact ⟨ServerCompat_of_eq _ _ hm.1, hm.2⟩

theorem handleLoop_frame :
    ∀ (qs : List Question) (tx : TxState),
      ServerCompat tx.server (handleLoop tx qs).server ∧ (handleLoop tx qs).env = tx.env := by
  intro qs
  induction qs with
  | nil => intro tx; exact ⟨ServerCompat_refl _, rfl⟩
  | cons q rest ih =>
    intro tx
    simp only [handleLoop]
    split_ifs
    · exact ⟨(ih _).1, (ih _).2⟩
    · rcases hadd : addAnswers { tx with qname := strToLower q.name, qtype := q.qtype, qclass := q.qclass } with ⟨tx2, e⟩
      have ha := addAnswers_frame { tx with qname := strToLower q.name, qtype := q.qtype, qclass := q.qclass }
      rw [hadd] at ha
      rcases e with _ | e
      · simp only []
        constructor
        · apply ServerCompat_trans _ tx2.server
          · exact ha.1
          · exact (ih tx2).1
        · rw [(ih tx2).2, ha.2]
      · simp only []
        exact ⟨ha.1, ha.2⟩

/-- Counterexample to C9 as stated: a DNSKEY query at the apex rewrites
the owner name of the *shared* KSK record (and of the ZSK) from
"ncdns." to the apex "example.", so the process-wide DNSKEY records are
not equal before and after the handler runs. -/
theorem C9_counterexample :
    srv1.ksk.hdr.name = "ncdns." ∧
    (handle srv1 env0 (oneQuestion "example." TypeDNSKEY)).server.ksk.hdr.name =
      "example." ∧
    ¬ (handle srv1 env0 (oneQuestion "example." TypeDNSKEY)).server.ksk.hdr.name =
        srv1.ksk.hdr.name ∧
    ¬ (handle srv1 env0 (oneQuestion "example." TypeDNSKEY)).server.zsk.hdr.name =
        srv1.zsk.hdr.name := by
  decide

/-- C9 (amended): handling a request leaves the configuration, the
backend handle, both private keys, and every field of the two shared
DNSKEY records except their owner names unchanged; only the owner
names of the KSK and ZSK may be rewritten (to the discovered apex). -/
theorem C9_shared_state_frame (srv : Server) (env : Env) (req : Request) :
    (handle srv env req).server.cfg = srv.cfg ∧
    (handle srv env req).server.b = srv.b ∧
    (handle srv env req).server.kskPrivate = srv.kskPrivate ∧
    (handle srv env req).server.zskPrivate = srv.zskPrivate ∧
    (handle srv env req).server.ksk =
      { srv.ksk with hdr :=
          { srv.ksk.hdr with name := (handle srv env req).server.ksk.hdr.name } } ∧
    (handle srv env req).server.zsk =
      { srv.zsk with hdr :=
          { srv.zsk.hdr with name := (handle srv env req).server.zsk.hdr.name } } ∧
    (handle srv env req).env = env := by
  have h := handleLoop_frame req.questions (initTx srv env req)
  exact ⟨h.1.1, h.1.2.1, h.1.2.2.1, h.1.2.2.2.1, h.1.2.2.2.2.1, h.1.2.2.2.2.2, h.2⟩

end Ncdns
